import Mathlib

/-!
# Verification of the voxel-sandbox core

A shallow embedding of the voxel-sandbox repository's core: the `VoxelChunk`
grid (bounds-checked reads/writes over a flat byte buffer), the base64
persistence codec (`encodeChunkData` / `decodeChunkData`), the undo/redo
history (`pushAction` / `undo` / `redo` / `applyAction` / `invertAction`),
the coordinate mapper (`cellToWorld` / `worldPointToCell`), the picker
(`updateHoverFromPointer`), and the pointer gesture state machine
(`handlePointerDown` / `handlePointerUp` / `handlePointerCancel` /
`handlePointerLeave` / the long-press timer callback).

Machine integers are modelled as `Nat` with explicit `% 256` where the
`Uint8Array` truncates; JS numbers that hold grid coordinates are modelled
as `Int`; continuous world coordinates are modelled as `ℚ` (the picker and
mapper only use ring operations and `floor`, which are exact).  Fallible
operations return `Option`.  The browser environment (raycaster results,
pointer events, timer firings) is a parameter: theorems quantify over every
possible environment input.
-/

/-! ## Block enumeration (the `Block` object in the source) -/

def Block.AIR : Nat := 0

def Block.GRASS : Nat := 1

def Block.SAND : Nat := 2

def Block.STONE : Nat := 3

def Block.WATER : Nat := 4

def Block.WOOD : Nat := 5

/-- The ids listed in `BLOCK_TYPES`; `blockTypeById` is a lookup over these. -/
def blockTypeIds : List Nat :=
  [Block.AIR, Block.GRASS, Block.SAND, Block.STONE, Block.WATER, Block.WOOD]

/-- The guard in `attemptPlace`: `blockTypeById.get(selectedBlockId)` found an
entry and its id is not `Block.AIR`. -/
def isPlaceableId (b : Nat) : Bool :=
  blockTypeIds.contains b && b != Block.AIR

/-! ## VoxelChunk -/

/-- A grid cell coordinate, an integer triple (JS numbers holding integers). -/
structure Cell where
  x : Int
  y : Int
  z : Int
deriving DecidableEq

/-- `VoxelChunk`: fixed dimensions and a flat `Uint8Array` buffer, modelled as
a `List Nat` whose entries are bytes.  The constructor allocates
`width * height * depth` entries; `Wf` records that length invariant. -/
structure VoxelChunk where
  width : Nat
  height : Nat
  depth : Nat
  data : List Nat
deriving DecidableEq

/-- The buffer has the length the constructor allocates. -/
def VoxelChunk.Wf (c : VoxelChunk) : Prop :=
  c.data.length = c.width * c.height * c.depth

instance (c : VoxelChunk) : Decidable c.Wf := by
  unfold VoxelChunk.Wf; infer_instance

/-- All stored values are bytes (a `Uint8Array` guarantees this). -/
def VoxelChunk.Bytes (c : VoxelChunk) : Prop :=
  ∀ b ∈ c.data, b < 256

instance (c : VoxelChunk) : Decidable c.Bytes := by
  unfold VoxelChunk.Bytes; infer_instance

/-- `getIndex(x, y, z)`: row-major linear index, y outermost then z then x. -/
def VoxelChunk.getIndex (c : VoxelChunk) (x y z : Int) : Int :=
  y * c.width * c.depth + z * c.width + x

/-- `inBounds(x, y, z)`. -/
def VoxelChunk.inBounds (c : VoxelChunk) (x y z : Int) : Bool :=
  decide (0 ≤ x) && decide (x < c.width) && decide (0 ≤ y) && decide (y < c.height) &&
    decide (0 ≤ z) && decide (z < c.depth)

/-- `getBlock(x, y, z)`: `Block.AIR` out of bounds, the stored byte otherwise. -/
def VoxelChunk.getBlock (c : VoxelChunk) (x y z : Int) : Nat :=
  if c.inBounds x y z then c.data.getD (c.getIndex x y z).toNat 0 else Block.AIR

/-- `setBlock(x, y, z, value)`: no-op out of bounds, otherwise overwrite; the
`Uint8Array` store truncates the value to a byte. -/
def VoxelChunk.setBlock (c : VoxelChunk) (x y z : Int) (v : Nat) : VoxelChunk :=
  if c.inBounds x y z then
    { c with data := c.data.set (c.getIndex x y z).toNat (v % 256) }
  else c

/-- Cell-triple versions used throughout the event-handling code. -/
def VoxelChunk.inBoundsCell (c : VoxelChunk) (p : Cell) : Bool :=
  c.inBounds p.x p.y p.z

def VoxelChunk.getBlockCell (c : VoxelChunk) (p : Cell) : Nat :=
  c.getBlock p.x p.y p.z

def VoxelChunk.setBlockCell (c : VoxelChunk) (p : Cell) (v : Nat) : VoxelChunk :=
  c.setBlock p.x p.y p.z v

/-! ### Basic lemmas about the grid -/

theorem VoxelChunk.inBounds_iff (c : VoxelChunk) (x y z : Int) :
    c.inBounds x y z = true ↔
      0 ≤ x ∧ x < (c.width : Int) ∧ 0 ≤ y ∧ y < (c.height : Int) ∧
        0 ≤ z ∧ z < (c.depth : Int) := by
  simp [VoxelChunk.inBounds, and_assoc]

/-- The linear index of an in-bounds coordinate is below the allocated size. -/
theorem VoxelChunk.getIndex_lt (c : VoxelChunk) (x y z : Int)
    (h : c.inBounds x y z = true) :
    (c.getIndex x y z).toNat < c.width * c.height * c.depth := by
  rw [VoxelChunk.inBounds_iff] at h
  obtain ⟨hx0, hxw, hy0, hyh, hz0, hzd⟩ := h
  have hw : 0 < (c.width : Int) := lt_of_le_of_lt hx0 hxw
  have hd : 0 < (c.depth : Int) := lt_of_le_of_lt hz0 hzd
  have hidx : c.getIndex x y z < (c.width : Int) * c.height * c.depth := by
    unfold VoxelChunk.getIndex
    have h1 : y * c.width * c.depth + z * c.width + x <
        y * c.width * c.depth + z * c.width + c.width := by omega
    have h2 : y * c.width * c.depth + z * c.width + c.width =
        y * c.width * c.depth + (z + 1) * c.width := by ring
    have h3 : (z + 1) * (c.width : Int) ≤ c.depth * c.width := by
      apply mul_le_mul_of_nonneg_right _ (le_of_lt hw)
      omega
    have h4 : y * (c.width : Int) * c.depth + c.depth * c.width =
        (y + 1) * (c.width * c.depth) := by ring
    have h5 : (y + 1) * ((c.width : Int) * c.depth) ≤ c.height * (c.width * c.depth) := by
      apply mul_le_mul_of_nonneg_right _ (le_of_lt (mul_pos hw hd))
      omega
    have h6 : (c.height : Int) * (c.width * c.depth) = (c.width : Int) * c.height * c.depth := by
      ring
    omega
  have hnn : 0 ≤ c.getIndex x y z := by
    unfold VoxelChunk.getIndex
    have : 0 ≤ y * (c.width : Int) * c.depth :=
      mul_nonneg (mul_nonneg hy0 (le_of_lt hw)) (Int.natCast_nonneg _)
    have : 0 ≤ z * (c.width : Int) := mul_nonneg hz0 (le_of_lt hw)
    omega
  have : ((c.width * c.height * c.depth : Nat) : Int) = (c.width : Int) * c.height * c.depth := by
    push_cast; ring
  omega

theorem list_getD_set_self :
    ∀ (l : List Nat) (i v d : Nat), i < l.length → (l.set i v).getD i d = v := by
  intro l
  induction l with
  | nil => intro i v d h; simp at h
  | cons a t ih =>
    intro i v d h
    cases i with
    | zero => simp [List.set, List.getD]
    | succ j =>
      simp only [List.set, List.getD] at *
      exact ih j v d (by simpa using h)

theorem list_set_getD_self :
    ∀ (l : List Nat) (i d : Nat), i < l.length → l.set i (l.getD i d) = l := by
  intro l
  induction l with
  | nil => intro i d h; simp at h
  | cons a t ih =>
    intro i d h
    cases i with
    | zero => simp [List.set, List.getD]
    | succ j =>
      simp only [List.set, List.getD, List.cons.injEq, true_and] at *
      exact ih j d (by simpa using h)

/-- Dimensions are immutable: `setBlock` only touches the buffer. -/
theorem VoxelChunk.setBlock_dims (c : VoxelChunk) (x y z : Int) (v : Nat) :
    (c.setBlock x y z v).width = c.width ∧ (c.setBlock x y z v).height = c.height ∧
      (c.setBlock x y z v).depth = c.depth := by
  unfold VoxelChunk.setBlock
  split <;> simp

theorem VoxelChunk.setBlock_wf (c : VoxelChunk) (x y z : Int) (v : Nat)
    (h : c.Wf) : (c.setBlock x y z v).Wf := by
  unfold VoxelChunk.Wf VoxelChunk.setBlock at *
  split <;> simpa

theorem VoxelChunk.setBlock_bytes (c : VoxelChunk) (x y z : Int) (v : Nat)
    (h : c.Bytes) : (c.setBlock x y z v).Bytes := by
  unfold VoxelChunk.Bytes VoxelChunk.setBlock at *
  split
  · intro b hb
    simp only at hb
    rcases List.mem_or_eq_of_mem_set hb with h1 | h2
    · exact h b h1
    · omega
  · exact h

theorem VoxelChunk.inBounds_setBlock (c : VoxelChunk) (x y z x' y' z' : Int) (v : Nat) :
    (c.setBlock x' y' z' v).inBounds x y z = c.inBounds x y z := by
  unfold VoxelChunk.setBlock
  split <;> simp [VoxelChunk.inBounds]

/-- C1 get-after-set core: an in-bounds write is immediately readable. -/
theorem VoxelChunk.getBlock_setBlock_self (c : VoxelChunk) (x y z : Int) (v : Nat)
    (hwf : c.Wf) (hin : c.inBounds x y z = true) (hv : v < 256) :
    (c.setBlock x y z v).getBlock x y z = v := by
  unfold VoxelChunk.getBlock VoxelChunk.setBlock
  rw [hin]
  simp only [if_pos]
  have hidx : (c.getIndex x y z).toNat < c.data.length := by
    rw [hwf]; exact c.getIndex_lt x y z hin
  have hb : ({ c with data := c.data.set (c.getIndex x y z).toNat (v % 256) } :
      VoxelChunk).inBounds x y z = true := by
    simpa [VoxelChunk.inBounds] using hin
  rw [if_pos hb]
  show (c.data.set (c.getIndex x y z).toNat (v % 256)).getD
      ((VoxelChunk.getIndex _ x y z).toNat) 0 = v
  have hidx2 : (VoxelChunk.getIndex
      { c with data := c.data.set (c.getIndex x y z).toNat (v % 256) } x y z) =
      c.getIndex x y z := by
    simp [VoxelChunk.getIndex]
  rw [hidx2, list_getD_set_self _ _ _ _ (by simpa using hidx)]
  omega

/-- C1: in-bounds `setBlock` then `getBlock` returns the written value; an
out-of-bounds `getBlock` returns `Block.AIR` whatever the buffer holds; an
out-of-bounds `setBlock` is a complete no-op (the chunk is unchanged, hence
every cell is unchanged).  Both operations are total Lean functions, so
neither can fail. -/
theorem getBlock_setBlock_spec (c : VoxelChunk) (x y z : Int) (v : Nat)
    (hwf : c.Wf) (hv : v < 256) :
    (c.inBounds x y z = true → (c.setBlock x y z v).getBlock x y z = v) ∧
      (c.inBounds x y z = false →
        c.getBlock x y z = Block.AIR ∧ c.setBlock x y z v = c) := by
  constructor
  · intro hin
    exact c.getBlock_setBlock_self x y z v hwf hin hv
  · intro hout
    constructor
    · unfold VoxelChunk.getBlock
      rw [hout]
      simp
    · unfold VoxelChunk.setBlock
      rw [hout]
      simp

/-- Witness for `getBlock_setBlock_spec` on a concrete 2×1×1 chunk. -/
theorem getBlock_setBlock_spec_witness :
    ((⟨2, 1, 1, [0, 0]⟩ : VoxelChunk).Wf ∧ (3 : Nat) < 256 ∧
        (⟨2, 1, 1, [0, 0]⟩ : VoxelChunk).inBounds 1 0 0 = true) ∧
      ((⟨2, 1, 1, [0, 0]⟩ : VoxelChunk).setBlock 1 0 0 3).getBlock 1 0 0 = 3 := by
  refine ⟨⟨by decide, by decide, by decide⟩, ?_⟩
  exact (getBlock_setBlock_spec ⟨2, 1, 1, [0, 0]⟩ 1 0 0 3 (by decide) (by decide)).1
    (by decide)

/-! ## Persistence codec

`encodeChunkData` is `btoa(String.fromCharCode(...chunk.data))`;
`decodeChunkData` is `atob` followed by a length check and an element-wise
copy back into the buffer.  `btoa`/`atob` are the standard base64
byte-to-text maps; text is modelled as the list of its character codes. -/

/-- The base64 alphabet, as character codes: A–Z, a–z, 0–9, `+`, `/`. -/
def base64Alphabet : List Nat :=
  [65, 66, 67, 68, 69, 70, 71, 72, 73, 74, 75, 76, 77, 78, 79, 80, 81, 82,
   83, 84, 85, 86, 87, 88, 89, 90,
   97, 98, 99, 100, 101, 102, 103, 104, 105, 106, 107, 108, 109, 110, 111,
   112, 113, 114, 115, 116, 117, 118, 119, 120, 121, 122,
   48, 49, 50, 51, 52, 53, 54, 55, 56, 57, 43, 47]

/-- Character code of the sextet `s` (0–63). -/
def sextetToChar (s : Nat) : Nat :=
  base64Alphabet.getD s 0

/-- Inverse of `sextetToChar`; `none` for codes outside the alphabet
(in particular for the pad character `=`, code 61). -/
def charToSextet (ch : Nat) : Option Nat :=
  base64Alphabet.findIdx? (fun a => a == ch)

/-- `btoa` on a byte list: standard base64, three bytes become four
characters, a final group of one or two bytes is padded with `=` (61). -/
def encodeGroups : List Nat → List Nat
  | [] => []
  | [a] => [sextetToChar (a / 4), sextetToChar (a % 4 * 16), 61, 61]
  | [a, b] =>
      [sextetToChar (a / 4), sextetToChar (a % 4 * 16 + b / 16),
       sextetToChar (b % 16 * 4), 61]
  | a :: b :: c :: rest =>
      sextetToChar (a / 4) :: sextetToChar (a % 4 * 16 + b / 16) ::
        sextetToChar (b % 16 * 4 + c / 64) :: sextetToChar (c % 64) ::
          encodeGroups rest

/-- `atob` on a character-code list: `none` models the exception on input
that is not well-formed base64. -/
def decodeGroups : List Nat → Option (List Nat)
  | [] => some []
  | c1 :: c2 :: c3 :: c4 :: rest =>
      match charToSextet c1, charToSextet c2 with
      | some s1, some s2 =>
          if c3 = 61 then
            if c4 = 61 ∧ rest = [] then some [s1 * 4 + s2 / 16] else none
          else
            match charToSextet c3 with
            | some s3 =>
                if c4 = 61 then
                  if rest = [] then
                    some [s1 * 4 + s2 / 16, s2 % 16 * 16 + s3 / 4]
                  else none
                else
                  match charToSextet c4, decodeGroups rest with
                  | some s4, some tail =>
                      some ((s1 * 4 + s2 / 16) :: (s2 % 16 * 16 + s3 / 4) ::
                        (s3 % 4 * 64 + s4) :: tail)
                  | _, _ => none
            | none => none
      | _, _ => none
  | _ => none

theorem charToSextet_sextetToChar_fin :
    ∀ s : Fin 64, charToSextet (sextetToChar s.val) = some s.val := by
  decide

theorem charToSextet_sextetToChar (s : Nat) (h : s < 64) :
    charToSextet (sextetToChar s) = some s :=
  charToSextet_sextetToChar_fin ⟨s, h⟩

theorem sextetToChar_ne_pad_fin : ∀ s : Fin 64, sextetToChar s.val ≠ 61 := by
  decide

theorem sextetToChar_ne_pad (s : Nat) (h : s < 64) : sextetToChar s ≠ 61 :=
  sextetToChar_ne_pad_fin ⟨s, h⟩

/-- Decoding an encoded byte list recovers it exactly. -/
theorem decodeGroups_encodeGroups :
    ∀ l : List Nat, (∀ b ∈ l, b < 256) → decodeGroups (encodeGroups l) = some l
  | [], _ => by simp [encodeGroups, decodeGroups]
  | [a], h => by
      have ha : a < 256 := h a (by simp)
      have h1 : a / 4 < 64 := by omega
      have h2 : a % 4 * 16 < 64 := by omega
      have e1 : a / 4 * 4 + a % 4 * 16 / 16 = a := by omega
      simp [encodeGroups, decodeGroups, charToSextet_sextetToChar _ h1,
        charToSextet_sextetToChar _ h2, e1]
      all_goals omega
  | [a, b], h => by
      have ha : a < 256 := h a (by simp)
      have hb : b < 256 := h b (by simp)
      have h1 : a / 4 < 64 := by omega
      have h2 : a % 4 * 16 + b / 16 < 64 := by omega
      have h3 : b % 16 * 4 < 64 := by omega
      have e1 : a / 4 * 4 + (a % 4 * 16 + b / 16) / 16 = a := by omega
      have e2 : (a % 4 * 16 + b / 16) % 16 * 16 + b % 16 * 4 / 4 = b := by omega
      simp [encodeGroups, decodeGroups, charToSextet_sextetToChar _ h1,
        charToSextet_sextetToChar _ h2, charToSextet_sextetToChar _ h3,
        sextetToChar_ne_pad _ h3, e1, e2]
      all_goals omega
  | a :: b :: c :: rest, hbytes => by
      have ha : a < 256 := hbytes a (by simp)
      have hb : b < 256 := hbytes b (by simp)
      have hc : c < 256 := hbytes c (by simp)
      have h1 : a / 4 < 64 := by omega
      have h2 : a % 4 * 16 + b / 16 < 64 := by omega
      have h3 : b % 16 * 4 + c / 64 < 64 := by omega
      have h4 : c % 64 < 64 := by omega
      have e1 : a / 4 * 4 + (a % 4 * 16 + b / 16) / 16 = a := by omega
      have e2 : (a % 4 * 16 + b / 16) % 16 * 16 + (b % 16 * 4 + c / 64) / 4 = b := by
        omega
      have e3 : (b % 16 * 4 + c / 64) % 4 * 64 + c % 64 = c := by omega
      have ih := decodeGroups_encodeGroups rest
        (fun x hx => hbytes x (List.mem_cons_of_mem _ (List.mem_cons_of_mem _
          (List.mem_cons_of_mem _ hx))))
      simp [encodeGroups, decodeGroups, charToSextet_sextetToChar _ h1,
        charToSextet_sextetToChar _ h2, charToSextet_sextetToChar _ h3,
        charToSextet_sextetToChar _ h4, sextetToChar_ne_pad _ h3,
        sextetToChar_ne_pad _ h4, ih, e1, e2, e3]

theorem list_map_mod_self :
    ∀ l : List Nat, (∀ b ∈ l, b < 256) → l.map (· % 256) = l := by
  intro l
  induction l with
  | nil => intro; rfl
  | cons a t ih =>
    intro h
    have ha : a < 256 := h a (by simp)
    simp only [List.map_cons, List.cons.injEq]
    exact ⟨Nat.mod_eq_of_lt ha, ih fun b hb => h b (by simp [hb])⟩

/-- `encodeChunkData()`: base64 of the raw buffer. -/
def encodeChunkData (c : VoxelChunk) : List Nat :=
  encodeGroups c.data

/-- The two ways `decodeChunkData` can throw. -/
inductive DecodeError where
  | invalidChar
  | lengthMismatch
deriving DecidableEq

/-- `decodeChunkData(encoded)` in state-passing form: returns the chunk after
the call together with `some` error if it threw.  The source checks the
decoded length against `chunk.data.length` before the first write to the
buffer, so on either error the chunk is returned untouched; each write
`chunk.data[i] = binaryString.charCodeAt(i)` truncates to a byte. -/
def decodeChunkData (encoded : List Nat) (c : VoxelChunk) :
    VoxelChunk × Option DecodeError :=
  match decodeGroups encoded with
  | none => (c, some .invalidChar)
  | some bytes =>
      if bytes.length = c.data.length then
        ({ c with data := bytes.map (· % 256) }, none)
      else (c, some .lengthMismatch)

/-- C2: encode-then-decode succeeds and restores the grid exactly, for every
chunk whose buffer holds bytes (every reachable grid state does). -/
theorem encode_decode_roundtrip (c : VoxelChunk) (hb : c.Bytes) :
    decodeChunkData (encodeChunkData c) c = (c, none) := by
  unfold decodeChunkData encodeChunkData
  rw [decodeGroups_encodeGroups c.data hb]
  simp [list_map_mod_self c.data hb]

/-- Witness for `encode_decode_roundtrip` on a concrete 1×1×2 chunk. -/
theorem encode_decode_roundtrip_witness :
    (⟨1, 1, 2, [7, 200]⟩ : VoxelChunk).Bytes ∧
      decodeChunkData (encodeChunkData ⟨1, 1, 2, [7, 200]⟩) ⟨1, 1, 2, [7, 200]⟩ =
        (⟨1, 1, 2, [7, 200]⟩, none) :=
  ⟨by decide, encode_decode_roundtrip ⟨1, 1, 2, [7, 200]⟩ (by decide)⟩

/-- C3: whenever the text decodes to a byte count different from
`width*height*depth`, `decodeChunkData` reports the length-mismatch error and
the returned chunk is exactly the chunk before the call — the length check
precedes every write, so no partial write happens. -/
theorem decode_length_mismatch (encoded : List Nat) (c : VoxelChunk)
    (bytes : List Nat) (hwf : c.Wf) (hdec : decodeGroups encoded = some bytes)
    (hlen : bytes.length ≠ c.width * c.height * c.depth) :
    decodeChunkData encoded c = (c, some .lengthMismatch) := by
  unfold decodeChunkData
  rw [hdec]
  have hne : bytes.length ≠ c.data.length := by rw [hwf]; exact hlen
  simp [hne]

/-- Witness for `decode_length_mismatch`: a valid 4-character blob decoding
to one byte, fed to a 1×1×2 chunk expecting two bytes. -/
theorem decode_length_mismatch_witness :
    ((⟨1, 1, 2, [0, 0]⟩ : VoxelChunk).Wf ∧
        decodeGroups (encodeGroups [5]) = some [5] ∧
        ([5] : List Nat).length ≠ 1 * 1 * 2) ∧
      decodeChunkData (encodeGroups [5]) ⟨1, 1, 2, [0, 0]⟩ =
        (⟨1, 1, 2, [0, 0]⟩, some .lengthMismatch) := by
  refine ⟨⟨by decide, by decide, by decide⟩, ?_⟩
  exact decode_length_mismatch (encodeGroups [5]) ⟨1, 1, 2, [0, 0]⟩ [5]
    (by decide) (by decide) (by decide)

/-! ## Coordinate mapper

`cellToWorld` / `worldPointToCell` from the source; continuous positions are
modelled as rational triples (the functions use only ring operations and
`Math.floor`, which are exact on the dyadic values involved). -/

structure Vec3 where
  x : ℚ
  y : ℚ
  z : ℚ
deriving DecidableEq

def VOXEL_SIZE : ℚ := 1

/-- `halfWidth = (chunk.width * VOXEL_SIZE) / 2`. -/
def halfWidth (c : VoxelChunk) : ℚ :=
  c.width * VOXEL_SIZE / 2

/-- `halfDepth = (chunk.depth * VOXEL_SIZE) / 2`. -/
def halfDepth (c : VoxelChunk) : ℚ :=
  c.depth * VOXEL_SIZE / 2

/-- `cellToWorld(x, y, z)`: centered on the x/z footprint, grid-aligned on y. -/
def cellToWorld (c : VoxelChunk) (p : Cell) : Vec3 :=
  ⟨(p.x + 1 / 2) * VOXEL_SIZE - halfWidth c, p.y * VOXEL_SIZE,
    (p.z + 1 / 2) * VOXEL_SIZE - halfDepth c⟩

/-- `worldPointToCell(worldPoint, options)`: `options.snapY` selects whether
the vertical coordinate is divided by `VOXEL_SIZE` before the shared
`Math.floor(yRaw + 0.5)` rounding; `null` when the resolved cell is out of
bounds. -/
def worldPointToCell (c : VoxelChunk) (p : Vec3) (snapY : Bool) : Option Cell :=
  let x : Int := ⌊(p.x + halfWidth c) / VOXEL_SIZE⌋
  let yRaw : ℚ := if snapY then p.y / VOXEL_SIZE else p.y
  let y : Int := ⌊yRaw + 1 / 2⌋
  let z : Int := ⌊(p.z + halfDepth c) / VOXEL_SIZE⌋
  if c.inBounds x y z then some ⟨x, y, z⟩ else none

/-- The mapper exactly as claim C8 words it: in snapped mode the cell is
obtained by flooring position/size on each axis (with the documented affine
half-extent offsets on x/z); in ground mode the vertical axis floors
`value + 0.5`; `None` when the resolved cell is out of bounds. -/
def worldPointToCellClaim (c : VoxelChunk) (p : Vec3) (snapY : Bool) : Option Cell :=
  let x : Int := ⌊(p.x + halfWidth c) / VOXEL_SIZE⌋
  let y : Int := if snapY then ⌊p.y / VOXEL_SIZE⌋ else ⌊p.y + 1 / 2⌋
  let z : Int := ⌊(p.z + halfDepth c) / VOXEL_SIZE⌋
  if c.inBounds x y z then some ⟨x, y, z⟩ else none

/-- C8 counterexample: at world point `(0, 3/5, 0)` in snapped mode the code
rounds the vertical axis as `⌊3/5 + 1/2⌋ = 1`, not `⌊3/5⌋ = 0` as the claim's
snapped-mode description demands, so the two disagree on a 16×12×16 grid. -/
theorem worldPointToCell_claim_counterexample :
    worldPointToCell ⟨16, 12, 16, []⟩ ⟨0, 3 / 5, 0⟩ true ≠
      worldPointToCellClaim ⟨16, 12, 16, []⟩ ⟨0, 3 / 5, 0⟩ true := by
  have h1 : worldPointToCell ⟨16, 12, 16, []⟩ ⟨0, 3 / 5, 0⟩ true = some ⟨8, 1, 8⟩ := by
    unfold worldPointToCell halfWidth halfDepth VOXEL_SIZE
    norm_num
    decide
  have h2 : worldPointToCellClaim ⟨16, 12, 16, []⟩ ⟨0, 3 / 5, 0⟩ true =
      some ⟨8, 0, 8⟩ := by
    unfold worldPointToCellClaim halfWidth halfDepth VOXEL_SIZE
    norm_num
    decide
  rw [h1, h2]
  decide

/-- The resolved cell of the amended claim: x and z floor the half-extent
offset position divided by the voxel size; the vertical index is
`⌊y / size + 1/2⌋` in snapped mode and `⌊y + 1/2⌋` in ground mode. -/
def resolvedCellAmended (c : VoxelChunk) (p : Vec3) (snapY : Bool) : Cell where
  x := ⌊(p.x + c.width * VOXEL_SIZE / 2) / VOXEL_SIZE⌋
  y := if snapY then ⌊p.y / VOXEL_SIZE + 1 / 2⌋ else ⌊p.y + 1 / 2⌋
  z := ⌊(p.z + c.depth * VOXEL_SIZE / 2) / VOXEL_SIZE⌋

/-- C8 amended: both modes round the vertical axis by adding 1/2 before
flooring (snapped divides by the voxel size first, ground uses the raw
value); x/z floor the offset position divided by the size; and the result is
`none` exactly when the resolved cell lies outside the grid bounds. -/
theorem worldPointToCell_amended (c : VoxelChunk) (p : Vec3) (snapY : Bool) :
    worldPointToCell c p snapY =
        (if c.inBoundsCell (resolvedCellAmended c p snapY) then
          some (resolvedCellAmended c p snapY)
        else none) ∧
      (worldPointToCell c p snapY = none ↔
        c.inBoundsCell (resolvedCellAmended c p snapY) = false) := by
  have hmain : worldPointToCell c p snapY =
      (if c.inBoundsCell (resolvedCellAmended c p snapY) then
        some (resolvedCellAmended c p snapY)
      else none) := by
    cases snapY <;>
      simp [worldPointToCell, resolvedCellAmended, VoxelChunk.inBoundsCell,
        halfWidth, halfDepth]
  refine ⟨hmain, ?_⟩
  rw [hmain]
  by_cases hb : c.inBoundsCell (resolvedCellAmended c p snapY) <;> simp [hb]

/-! ## Picker -/

/-- The data `updateHoverFromPointer` reads off the nearest raycast
intersection: whether the hit object is a block instanced mesh with a face
(`blockIdByObject.has(hit.object) && hit.face`), the face normal (axis-aligned
unit vectors of the box geometry, hence integer-valued), and the hit point.
The raycast itself happens inside the rendering library; theorems quantify
over every possible intersection result. -/
structure RayHit where
  isBlockWithFace : Bool
  normalX : Int
  normalY : Int
  normalZ : Int
  point : Vec3
deriving DecidableEq

/-- `updateHoverFromPointer()`: computes `(hoverPlaceCell, hoverRemoveCell)`
from the nearest intersection; `ray = none` covers both a null
`lastPointerCoords` and an empty intersection list.  The hit cell (nudged
half a voxel inward along the face normal and snapped) is the removal
candidate; its neighbor across the face is the placement candidate only if
in-bounds and currently `Block.AIR`. -/
def updateHoverFromPointer (c : VoxelChunk) (ray : Option RayHit) :
    Option Cell × Option Cell :=
  match ray with
  | none => (none, none)
  | some hit =>
      if hit.isBlockWithFace then
        let pointInside : Vec3 :=
          ⟨hit.point.x + hit.normalX * (-(1 / 2) * VOXEL_SIZE),
           hit.point.y + hit.normalY * (-(1 / 2) * VOXEL_SIZE),
           hit.point.z + hit.normalZ * (-(1 / 2) * VOXEL_SIZE)⟩
        match worldPointToCell c pointInside true with
        | none => (none, none)
        | some hitCell =>
            let adjacentCell : Cell :=
              ⟨hitCell.x + hit.normalX, hitCell.y + hit.normalY,
                hitCell.z + hit.normalZ⟩
            if c.inBoundsCell adjacentCell && c.getBlockCell adjacentCell == Block.AIR
            then (some adjacentCell, some hitCell)
            else (none, some hitCell)
      else (none, none)

/-- A non-`Block.AIR` read implies the coordinate is in bounds (out-of-bounds
reads return `Block.AIR`). -/
theorem VoxelChunk.getBlockCell_ne_air_inBounds (c : VoxelChunk) (p : Cell)
    (h : c.getBlockCell p ≠ Block.AIR) : c.inBoundsCell p = true := by
  unfold VoxelChunk.getBlockCell VoxelChunk.getBlock at h
  unfold VoxelChunk.inBoundsCell
  by_cases hb : c.inBounds p.x p.y p.z = true
  · exact hb
  · rw [if_neg hb] at h
    exact absurd rfl h

/-- The raycaster contract for a hit on a rendered block instance: the hit
point lies on a face of the unit cube drawn at cell `cellh` (the cube is
centered on `cellToWorld cellh`): pushing the hit point half a voxel inward
along the face normal lands at the cube center plus an in-face tangential
offset `t`, each component strictly inside the cube cross-section. -/
def ValidFaceHit (c : VoxelChunk) (hit : RayHit) (cellh : Cell) (t : Vec3) : Prop :=
  hit.isBlockWithFace = true ∧
    hit.point.x - hit.normalX * (1 / 2 : ℚ) = (cellToWorld c cellh).x + t.x ∧
    hit.point.y - hit.normalY * (1 / 2 : ℚ) = (cellToWorld c cellh).y + t.y ∧
    hit.point.z - hit.normalZ * (1 / 2 : ℚ) = (cellToWorld c cellh).z + t.z ∧
    -(1 / 2) ≤ t.x ∧ t.x < 1 / 2 ∧ -(1 / 2) ≤ t.y ∧ t.y < 1 / 2 ∧
    -(1 / 2) ≤ t.z ∧ t.z < 1 / 2

instance (c : VoxelChunk) (hit : RayHit) (cellh : Cell) (t : Vec3) :
    Decidable (ValidFaceHit c hit cellh t) := by
  unfold ValidFaceHit; infer_instance

/-- C6: the picker never offers a placement candidate at an occupied (or
out-of-bounds) cell, for every pointer position and every raycast result;
and whenever the nearest hit lies on a face of an occupied rendered cell,
the removal candidate is exactly that occupied cell — so no removal
candidate is ever produced for an `Block.AIR` cell. -/
theorem picker_candidates_sound (c : VoxelChunk) (hit : RayHit) (cellh : Cell)
    (t : Vec3) (hface : ValidFaceHit c hit cellh t)
    (hocc : c.getBlockCell cellh ≠ Block.AIR) :
    (∀ (ray : Option RayHit) (cl : Cell),
        (updateHoverFromPointer c ray).1 = some cl →
          c.inBoundsCell cl = true ∧ c.getBlockCell cl = Block.AIR) ∧
      (updateHoverFromPointer c (some hit)).2 = some cellh := by
  constructor
  · intro ray cl hcl
    match ray with
    | none => simp [updateHoverFromPointer] at hcl
    | some h =>
        simp only [updateHoverFromPointer] at hcl
        by_cases hb : h.isBlockWithFace
        · rw [if_pos hb] at hcl
          rcases hwp : worldPointToCell c
              ⟨h.point.x + h.normalX * (-(1 / 2) * VOXEL_SIZE),
               h.point.y + h.normalY * (-(1 / 2) * VOXEL_SIZE),
               h.point.z + h.normalZ * (-(1 / 2) * VOXEL_SIZE)⟩ true with
            _ | hitCell
          · rw [hwp] at hcl
            simp at hcl
          · rw [hwp] at hcl
            simp only at hcl
            by_cases hc : c.inBoundsCell
                ⟨hitCell.x + h.normalX, hitCell.y + h.normalY,
                  hitCell.z + h.normalZ⟩ &&
                (c.getBlockCell
                  ⟨hitCell.x + h.normalX, hitCell.y + h.normalY,
                    hitCell.z + h.normalZ⟩ == Block.AIR)
            · rw [if_pos hc] at hcl
              simp only [Option.some.injEq] at hcl
              subst hcl
              simp only [Bool.and_eq_true, beq_iff_eq] at hc
              exact ⟨hc.1, hc.2⟩
            · rw [if_neg hc] at hcl
              simp at hcl
        · rw [if_neg hb] at hcl
          simp at hcl
  · obtain ⟨hbf, hx, hy, hz, htx0, htx1, hty0, hty1, htz0, htz1⟩ := hface
    have hin : c.inBoundsCell cellh = true := c.getBlockCell_ne_air_inBounds cellh hocc
    simp only [updateHoverFromPointer]
    rw [if_pos hbf]
    have hwp : worldPointToCell c
        ⟨hit.point.x + hit.normalX * (-(1 / 2) * VOXEL_SIZE),
         hit.point.y + hit.normalY * (-(1 / 2) * VOXEL_SIZE),
         hit.point.z + hit.normalZ * (-(1 / 2) * VOXEL_SIZE)⟩ true = some cellh := by
      unfold worldPointToCell
      have ex : hit.point.x + hit.normalX * (-(1 / 2) * VOXEL_SIZE) =
          (cellToWorld c cellh).x + t.x := by
        rw [← hx]; unfold VOXEL_SIZE; ring
      have ey : hit.point.y + hit.normalY * (-(1 / 2) * VOXEL_SIZE) =
          (cellToWorld c cellh).y + t.y := by
        rw [← hy]; unfold VOXEL_SIZE; ring
      have ez : hit.point.z + hit.normalZ * (-(1 / 2) * VOXEL_SIZE) =
          (cellToWorld c cellh).z + t.z := by
        rw [← hz]; unfold VOXEL_SIZE; ring
      have fx : ⌊(((cellToWorld c cellh).x + t.x) + halfWidth c) / VOXEL_SIZE⌋ =
          cellh.x := by
        unfold cellToWorld VOXEL_SIZE
        rw [Int.floor_eq_iff]
        constructor
        · simp only
          linarith
        · simp only
          linarith
      have fy : ⌊(((cellToWorld c cellh).y + t.y) / VOXEL_SIZE) + 1 / 2⌋ =
          cellh.y := by
        unfold cellToWorld VOXEL_SIZE
        rw [Int.floor_eq_iff]
        constructor
        · simp only
          linarith
        · simp only
          linarith
      have fz : ⌊(((cellToWorld c cellh).z + t.z) + halfDepth c) / VOXEL_SIZE⌋ =
          cellh.z := by
        unfold cellToWorld VOXEL_SIZE
        rw [Int.floor_eq_iff]
        constructor
        · simp only
          linarith
        · simp only
          linarith
      simp only [ex, ey, ez, if_true, fx, fy, fz]
      have hin2 : c.inBounds cellh.x cellh.y cellh.z = true := hin
      rw [if_pos hin2]
    simp only [hwp]
    split <;> rfl

/-- Witness for `picker_candidates_sound`: a 1×1×1 grid whose single cell
holds stone, with a hit on the top face of its cube, resolves the removal
candidate to that occupied cell. -/
theorem picker_candidates_sound_witness :
    (ValidFaceHit ⟨1, 1, 1, [3]⟩
          ⟨true, 0, 1, 0, ⟨0, 1 / 2, 0⟩⟩ ⟨0, 0, 0⟩ ⟨0, 0, 0⟩ ∧
        (⟨1, 1, 1, [3]⟩ : VoxelChunk).getBlockCell ⟨0, 0, 0⟩ ≠ Block.AIR) ∧
      (updateHoverFromPointer ⟨1, 1, 1, [3]⟩
          (some ⟨true, 0, 1, 0, ⟨0, 1 / 2, 0⟩⟩)).2 = some ⟨0, 0, 0⟩ :=
  ⟨⟨by norm_num [ValidFaceHit, cellToWorld, halfWidth, halfDepth, VOXEL_SIZE],
      by decide⟩,
    (picker_candidates_sound ⟨1, 1, 1, [3]⟩
        ⟨true, 0, 1, 0, ⟨0, 1 / 2, 0⟩⟩ ⟨0, 0, 0⟩ ⟨0, 0, 0⟩
        (by norm_num [ValidFaceHit, cellToWorld, halfWidth, halfDepth, VOXEL_SIZE])
        (by decide)).2⟩

/-! ## Edit actions, history, and the gesture state machine

The remaining global state of part_000: the chunk, the two history stacks,
the `isRestoring` flag, the selected palette entry, the hover cells, the
per-pointer gesture record (`pointerState`) and the save timer.  The
`commits` field is specification instrumentation only: it logs one entry for
every `attemptPlace`/`attemptRemove` call that actually mutated the grid, so
theorems can speak about "committed" edits. -/

inductive ActionKind where
  | place
  | remove
deriving DecidableEq

/-- An edit action `{type, blockId, cell}` as stored on the history stacks. -/
structure EditAction where
  kind : ActionKind
  blockId : Nat
  cell : Cell
deriving DecidableEq

/-- `invertAction(action)`: swap place and remove, keep blockId and cell. -/
def invertAction (a : EditAction) : EditAction :=
  match a.kind with
  | .place => { a with kind := .remove }
  | .remove => { a with kind := .place }

/-- The `pointerState` record of the gesture controller.  `timerPending`
models a live long-press timeout (armed and not yet fired or cleared). -/
structure PointerState where
  pointerId : Option Nat
  timerPending : Bool
  longPressFired : Bool
  placeCell : Option Cell
  removeCell : Option Cell
deriving DecidableEq

/-- The mutable module-level state of part_000 that the claims touch. -/
structure SysState where
  chunk : VoxelChunk
  undoStack : List EditAction
  redoStack : List EditAction
  isRestoring : Bool
  selectedBlockId : Nat
  hoverPlaceCell : Option Cell
  hoverRemoveCell : Option Cell
  pointer : PointerState
  saveScheduled : Bool
  commits : List EditAction
deriving DecidableEq

/-- `pushAction(action)`: push a clone onto the undo stack, clear redo. -/
def pushAction (s : SysState) (a : EditAction) : SysState :=
  { s with undoStack := a :: s.undoStack, redoStack := [] }

/-- `applyAction(action)`: `false` if the cell is out of bounds, otherwise
write the placed id (or `Block.AIR` for a removal), rebuild instances and
schedule a save inside an `isRestoring` bracket (reset in `finally`). -/
def applyAction (s : SysState) (a : EditAction) : SysState × Bool :=
  if s.chunk.inBoundsCell a.cell then
    ({ s with
        chunk := s.chunk.setBlockCell a.cell
          (match a.kind with | .place => a.blockId | .remove => Block.AIR),
        saveScheduled := true,
        isRestoring := false }, true)
  else (s, false)

/-- `undo()`. -/
def undo (s : SysState) : SysState :=
  match s.undoStack with
  | [] => s
  | a :: rest =>
      let s1 := { s with undoStack := rest }
      let r := applyAction s1 (invertAction a)
      if r.2 then { r.1 with redoStack := a :: r.1.redoStack } else r.1

/-- `redo()`. -/
def redo (s : SysState) : SysState :=
  match s.redoStack with
  | [] => s
  | a :: rest =>
      let s1 := { s with redoStack := rest }
      let r := applyAction s1 a
      if r.2 then { r.1 with undoStack := a :: r.1.undoStack } else r.1

/-- `attemptPlace(cell)`.  `ray` is the raycast result that the trailing
`updateHoverFromPointer()` call observes (environment input). -/
def attemptPlace (s : SysState) (cellOpt : Option Cell) (ray : Option RayHit) :
    SysState :=
  match cellOpt with
  | none => s
  | some cell =>
      if isPlaceableId s.selectedBlockId = false then s
      else if s.chunk.getBlockCell cell ≠ Block.AIR then s
      else
        let a : EditAction := ⟨.place, s.selectedBlockId, cell⟩
        let s1 := { s with
          chunk := s.chunk.setBlockCell cell s.selectedBlockId,
          saveScheduled := true,
          commits := s.commits ++ [a] }
        let s2 := if s1.isRestoring = false then pushAction s1 a else s1
        let h := updateHoverFromPointer s2.chunk ray
        { s2 with hoverPlaceCell := h.1, hoverRemoveCell := h.2 }

/-- `attemptRemove(cell)`. -/
def attemptRemove (s : SysState) (cellOpt : Option Cell) (ray : Option RayHit) :
    SysState :=
  match cellOpt with
  | none => s
  | some cell =>
      if s.chunk.getBlockCell cell = Block.AIR then s
      else
        let a : EditAction := ⟨.remove, s.chunk.getBlockCell cell, cell⟩
        let s1 := { s with
          chunk := s.chunk.setBlockCell cell Block.AIR,
          saveScheduled := true,
          commits := s.commits ++ [a] }
        let s2 := if s1.isRestoring = false then pushAction s1 a else s1
        let h := updateHoverFromPointer s2.chunk ray
        { s2 with hoverPlaceCell := h.1, hoverRemoveCell := h.2 }

/-- `clearPointerState()` (including `clearPointerTimer`). -/
def clearPointerState (s : SysState) : SysState :=
  { s with pointer := ⟨none, false, false, none, none⟩ }

/-- One browser event delivered to the controller, together with the raycast
result the handler's `updateHover` would observe at that moment. -/
inductive PointerEvent where
  | pointerDown (pid : Nat) (button : Nat) (ray : Option RayHit)
  | pointerMove (pid : Nat) (ray : Option RayHit)
  | pointerUp (pid : Nat) (ray : Option RayHit)
  | pointerCancel (pid : Nat)
  | pointerLeave
  | longPressTimer (ray : Option RayHit)
  | undoClick
  | redoClick
deriving DecidableEq

/-- `handlePointerDown(event)`. -/
def handlePointerDown (s : SysState) (pid button : Nat) (ray : Option RayHit) :
    SysState :=
  if s.pointer.pointerId ≠ none ∨ button > 0 then s
  else
    let h := updateHoverFromPointer s.chunk ray
    let s1 := { s with hoverPlaceCell := h.1, hoverRemoveCell := h.2 }
    if h.1 = none ∧ h.2 = none then s1
    else
      { s1 with pointer :=
          { pointerId := some pid
            timerPending := h.2.isSome
            longPressFired := false
            placeCell := h.1
            removeCell := h.2 } }

/-- `handlePointerMove(event)`. -/
def handlePointerMove (s : SysState) (pid : Nat) (ray : Option RayHit) : SysState :=
  let h := updateHoverFromPointer s.chunk ray
  let s1 := { s with hoverPlaceCell := h.1, hoverRemoveCell := h.2 }
  if s1.pointer.pointerId = some pid then
    { s1 with pointer :=
        { s1.pointer with
            placeCell := h.1
            removeCell := h.2
            timerPending := if h.2 = none then false else s1.pointer.timerPending } }
  else s1

/-- The long-press `setTimeout` callback: only deliverable while the timeout
is live (`clearTimeout` kills it; it never fires twice). -/
def handleLongPressTimer (s : SysState) (ray : Option RayHit) : SysState :=
  if s.pointer.timerPending then
    let s1 := attemptRemove s s.pointer.removeCell ray
    { s1 with pointer :=
        { s1.pointer with longPressFired := true, timerPending := false } }
  else s

/-- `handlePointerUp(event)`. -/
def handlePointerUp (s : SysState) (pid : Nat) (ray : Option RayHit) : SysState :=
  if s.pointer.pointerId = some pid then
    let placeCell := s.pointer.placeCell
    let shouldPlace := s.pointer.longPressFired = false ∧ placeCell ≠ none
    let s1 := clearPointerState s
    if shouldPlace then attemptPlace s1 placeCell ray else s1
  else s

/-- `handlePointerCancel(event)`. -/
def handlePointerCancel (s : SysState) (pid : Nat) : SysState :=
  if s.pointer.pointerId = some pid then clearPointerState s else s

/-- `handlePointerLeave()`: clears hover, pointer state and (in the model)
the stale pointer coordinates. -/
def handlePointerLeave (s : SysState) : SysState :=
  clearPointerState { s with hoverPlaceCell := none, hoverRemoveCell := none }

/-- Event dispatch, as wired by the `addEventListener` calls. -/
def step (s : SysState) (e : PointerEvent) : SysState :=
  match e with
  | .pointerDown pid button ray => handlePointerDown s pid button ray
  | .pointerMove pid ray => handlePointerMove s pid ray
  | .pointerUp pid ray => handlePointerUp s pid ray
  | .pointerCancel pid => handlePointerCancel s pid
  | .pointerLeave => handlePointerLeave s
  | .longPressTimer ray => handleLongPressTimer s ray
  | .undoClick => undo s
  | .redoClick => redo s

/-- Run a sequence of events. -/
def runEvents (s : SysState) : List PointerEvent → SysState
  | [] => s
  | e :: es => runEvents (step s e) es

/-! ## C5: a new edit clears the redo stack -/

/-- C5: `pushAction` leaves the redo stack with length zero, a `redo` on an
empty redo stack is a no-op, and further edits (`attemptPlace` /
`attemptRemove`) keep the redo stack empty — so after recording a new user
edit, `redo` stays a no-op until a new `undo` occurs. -/
theorem pushAction_clears_redo (s : SysState) (a : EditAction) :
    (pushAction s a).redoStack.length = 0 ∧
      (∀ s' : SysState, s'.redoStack = [] → redo s' = s') ∧
      (∀ (s' : SysState) (cellOpt : Option Cell) (ray : Option RayHit),
        s'.redoStack = [] →
          (attemptPlace s' cellOpt ray).redoStack = [] ∧
            (attemptRemove s' cellOpt ray).redoStack = []) := by
  refine ⟨rfl, ?_, ?_⟩
  · intro s' h
    unfold redo
    rw [h]
  · intro s' cellOpt ray h
    constructor
    · cases cellOpt with
      | none => simpa [attemptPlace] using h
      | some cl =>
          simp only [attemptPlace]
          split_ifs <;> simp [pushAction, h]
    · cases cellOpt with
      | none => simpa [attemptRemove] using h
      | some cl =>
          simp only [attemptRemove]
          split_ifs <;> simp [pushAction, h]

/-- Witness for `pushAction_clears_redo` at a concrete state. -/
theorem pushAction_clears_redo_witness :
    ((⟨⟨1, 1, 1, [0]⟩, [], [], false, 1, none, none,
          ⟨none, false, false, none, none⟩, false, []⟩ : SysState).redoStack = []) ∧
      redo (⟨⟨1, 1, 1, [0]⟩, [], [], false, 1, none, none,
          ⟨none, false, false, none, none⟩, false, []⟩ : SysState) =
        (⟨⟨1, 1, 1, [0]⟩, [], [], false, 1, none, none,
          ⟨none, false, false, none, none⟩, false, []⟩ : SysState) :=
  ⟨rfl,
    (pushAction_clears_redo
        (⟨⟨1, 1, 1, [0]⟩, [], [], false, 1, none, none,
          ⟨none, false, false, none, none⟩, false, []⟩ : SysState)
        ⟨.place, 1, ⟨0, 0, 0⟩⟩).2.1 _ rfl⟩

/-! ## C10: no-op edits are complete no-ops -/

/-- C10: committing a Place on a non-empty cell (or with no placeable block
type selected), or a Remove on an empty cell, returns the state unchanged:
the early-return paths of `attemptPlace` / `attemptRemove` run before any
grid write, any `pushAction` and any `scheduleSave`. -/
theorem attempt_noop (s : SysState) (cl : Cell) (ray : Option RayHit) :
    ((s.chunk.getBlockCell cl ≠ Block.AIR ∨
          isPlaceableId s.selectedBlockId = false) →
        attemptPlace s (some cl) ray = s) ∧
      (s.chunk.getBlockCell cl = Block.AIR → attemptRemove s (some cl) ray = s) := by
  constructor
  · intro h
    simp only [attemptPlace]
    by_cases hp : isPlaceableId s.selectedBlockId = false
    · rw [if_pos hp]
    · rw [if_neg hp]
      have hg : s.chunk.getBlockCell cl ≠ Block.AIR := by tauto
      rw [if_pos hg]
  · intro h
    simp only [attemptRemove]
    rw [if_pos h]

/-- Witness for `attempt_noop`: placing onto an occupied 1×1×1 grid and
removing from an empty one both leave the state untouched. -/
theorem attempt_noop_witness :
    ((⟨⟨1, 1, 1, [3]⟩, [], [], false, 1, none, none,
          ⟨none, false, false, none, none⟩, false, []⟩ : SysState).chunk.getBlockCell
            ⟨0, 0, 0⟩ ≠ Block.AIR ∧
        attemptPlace (⟨⟨1, 1, 1, [3]⟩, [], [], false, 1, none, none,
          ⟨none, false, false, none, none⟩, false, []⟩ : SysState)
            (some ⟨0, 0, 0⟩) none =
          (⟨⟨1, 1, 1, [3]⟩, [], [], false, 1, none, none,
            ⟨none, false, false, none, none⟩, false, []⟩ : SysState)) ∧
      ((⟨⟨1, 1, 1, [0]⟩, [], [], false, 1, none, none,
          ⟨none, false, false, none, none⟩, false, []⟩ : SysState).chunk.getBlockCell
            ⟨0, 0, 0⟩ = Block.AIR ∧
        attemptRemove (⟨⟨1, 1, 1, [0]⟩, [], [], false, 1, none, none,
          ⟨none, false, false, none, none⟩, false, []⟩ : SysState)
            (some ⟨0, 0, 0⟩) none =
          (⟨⟨1, 1, 1, [0]⟩, [], [], false, 1, none, none,
            ⟨none, false, false, none, none⟩, false, []⟩ : SysState)) :=
  ⟨⟨by decide,
      (attempt_noop (⟨⟨1, 1, 1, [3]⟩, [], [], false, 1, none, none,
          ⟨none, false, false, none, none⟩, false, []⟩ : SysState)
        ⟨0, 0, 0⟩ none).1 (Or.inl (by decide))⟩,
    ⟨by decide,
      (attempt_noop (⟨⟨1, 1, 1, [0]⟩, [], [], false, 1, none, none,
          ⟨none, false, false, none, none⟩, false, []⟩ : SysState)
        ⟨0, 0, 0⟩ none).2 (by decide)⟩⟩

/-! ## C4: undo-then-redo round trip -/

theorem list_getD_mem :
    ∀ (l : List Nat) (i d : Nat), i < l.length → l.getD i d ∈ l := by
  intro l
  induction l with
  | nil => intro i d h; simp at h
  | cons a t ih =>
    intro i d h
    cases i with
    | zero => simp [List.getD]
    | succ j =>
      simp only [List.getD] at *
      exact List.mem_cons_of_mem _ (ih j d (by simpa using h))

/-- In a well-formed byte chunk every read is a byte. -/
theorem VoxelChunk.getBlockCell_lt (c : VoxelChunk) (p : Cell)
    (hwf : c.Wf) (hb : c.Bytes) : c.getBlockCell p < 256 := by
  unfold VoxelChunk.getBlockCell VoxelChunk.getBlock
  split
  · apply hb
    apply list_getD_mem
    rw [hwf]
    exact c.getIndex_lt p.x p.y p.z (by assumption)
  · unfold Block.AIR
    omega

theorem VoxelChunk.inBoundsCell_setBlockCell (c : VoxelChunk) (p q : Cell) (v : Nat) :
    (c.setBlockCell q v).inBoundsCell p = c.inBoundsCell p := by
  unfold VoxelChunk.inBoundsCell VoxelChunk.setBlockCell
  rw [VoxelChunk.inBounds_setBlock]

theorem VoxelChunk.setBlockCell_oob (c : VoxelChunk) (p : Cell) (v : Nat)
    (h : c.inBoundsCell p = false) : c.setBlockCell p v = c := by
  unfold VoxelChunk.setBlockCell VoxelChunk.setBlock
  unfold VoxelChunk.inBoundsCell at h
  rw [h]
  simp

/-- Overwriting a cell and then writing back the value it held restores the
chunk exactly. -/
theorem VoxelChunk.setBlockCell_cancel (c : VoxelChunk) (p : Cell) (v w : Nat)
    (hwf : c.Wf) (hin : c.inBoundsCell p = true)
    (hw : c.getBlockCell p = w) (hw256 : w < 256) :
    (c.setBlockCell p v).setBlockCell p w = c := by
  have hin' : c.inBounds p.x p.y p.z = true := hin
  have hidx : (c.getIndex p.x p.y p.z).toNat < c.data.length := by
    rw [hwf]
    exact c.getIndex_lt p.x p.y p.z hin'
  have hwD : c.data.getD (c.getIndex p.x p.y p.z).toNat 0 = w := by
    unfold VoxelChunk.getBlockCell VoxelChunk.getBlock at hw
    rw [if_pos hin'] at hw
    exact hw
  unfold VoxelChunk.setBlockCell VoxelChunk.setBlock
  rw [if_pos hin']
  have hin2 : ({ c with
      data := c.data.set (c.getIndex p.x p.y p.z).toNat (v % 256) } :
      VoxelChunk).inBounds p.x p.y p.z = true := by
    simpa [VoxelChunk.inBounds] using hin'
  rw [if_pos hin2]
  have hgi : ({ c with
      data := c.data.set (c.getIndex p.x p.y p.z).toNat (v % 256) } :
      VoxelChunk).getIndex p.x p.y p.z = c.getIndex p.x p.y p.z := by
    simp [VoxelChunk.getIndex]
  simp only [hgi]
  rw [List.set_set, Nat.mod_eq_of_lt hw256, ← hwD,
    list_set_getD_self _ _ _ hidx]

/-- The grid effect of `applyAction` (and of replaying an action). -/
def applyActionChunk (g : VoxelChunk) (a : EditAction) : VoxelChunk :=
  if g.inBoundsCell a.cell then
    g.setBlockCell a.cell
      (match a.kind with | .place => a.blockId | .remove => Block.AIR)
  else g

/-- Replaying a list of actions in order, as `redo` does one call at a time. -/
def replayChunk (g : VoxelChunk) : List EditAction → VoxelChunk
  | [] => g
  | a :: rest => replayChunk (applyActionChunk g a) rest

/-- `undo()` called `n` times. -/
def undoN : Nat → SysState → SysState
  | 0, s => s
  | n + 1, s => undoN n (undo s)

/-- `redo()` called `n` times. -/
def redoN : Nat → SysState → SysState
  | 0, s => s
  | n + 1, s => redoN n (redo s)

theorem undoN_succ (n : Nat) (s : SysState) :
    undoN (n + 1) s = undo (undoN n s) := by
  induction n generalizing s with
  | zero => rfl
  | succ k ih =>
      show undoN (k + 1) (undo s) = undo (undoN (k + 1) s)
      rw [ih (undo s)]
      rfl

/-- A successful `attemptPlace` commit, written out field by field. -/
theorem attemptPlace_commit (s : SysState) (cl : Cell) (ray : Option RayHit)
    (hsel : isPlaceableId s.selectedBlockId = true)
    (hair : s.chunk.getBlockCell cl = Block.AIR)
    (hres : s.isRestoring = false) :
    attemptPlace s (some cl) ray =
      { s with
          chunk := s.chunk.setBlockCell cl s.selectedBlockId,
          saveScheduled := true,
          commits := s.commits ++ [⟨.place, s.selectedBlockId, cl⟩],
          undoStack := ⟨.place, s.selectedBlockId, cl⟩ :: s.undoStack,
          redoStack := [],
          hoverPlaceCell :=
            (updateHoverFromPointer (s.chunk.setBlockCell cl s.selectedBlockId) ray).1,
          hoverRemoveCell :=
            (updateHoverFromPointer (s.chunk.setBlockCell cl s.selectedBlockId) ray).2 } := by
  simp only [attemptPlace]
  rw [if_neg (by simp [hsel])]
  rw [if_neg (by simp [hair])]
  simp [pushAction, hres]

/-- A successful `attemptRemove` commit, written out field by field. -/
theorem attemptRemove_commit (s : SysState) (cl : Cell) (ray : Option RayHit)
    (hocc : s.chunk.getBlockCell cl ≠ Block.AIR)
    (hres : s.isRestoring = false) :
    attemptRemove s (some cl) ray =
      { s with
          chunk := s.chunk.setBlockCell cl Block.AIR,
          saveScheduled := true,
          commits := s.commits ++ [⟨.remove, s.chunk.getBlockCell cl, cl⟩],
          undoStack := ⟨.remove, s.chunk.getBlockCell cl, cl⟩ :: s.undoStack,
          redoStack := [],
          hoverPlaceCell :=
            (updateHoverFromPointer (s.chunk.setBlockCell cl Block.AIR) ray).1,
          hoverRemoveCell :=
            (updateHoverFromPointer (s.chunk.setBlockCell cl Block.AIR) ray).2 } := by
  simp only [attemptRemove]
  rw [if_neg hocc]
  simp [pushAction, hres]

theorem invertAction_cell (a : EditAction) : (invertAction a).cell = a.cell := by
  unfold invertAction
  cases a.kind <;> rfl

/-- `undo` on a non-empty undo stack: pop, apply the inverse (a no-op on the
grid when the cell is out of bounds), and push the original onto redo only
when the inverse applied. -/
theorem undo_cons (s : SysState) (a : EditAction) (rest : List EditAction)
    (h : s.undoStack = a :: rest) :
    (undo s).chunk = applyActionChunk s.chunk (invertAction a) ∧
      (undo s).undoStack = rest ∧
      (undo s).redoStack =
        (if s.chunk.inBoundsCell a.cell = true then a :: s.redoStack
        else s.redoStack) := by
  unfold undo applyAction applyActionChunk
  rw [h]
  simp only [invertAction_cell]
  by_cases hin : s.chunk.inBoundsCell a.cell = true
  · simp [hin]
  · simp [hin]

/-- `redo` on a non-empty redo stack: pop and re-apply. -/
theorem redo_cons (s : SysState) (a : EditAction) (rest : List EditAction)
    (h : s.redoStack = a :: rest) :
    (redo s).chunk = applyActionChunk s.chunk a ∧ (redo s).redoStack = rest := by
  unfold redo applyAction applyActionChunk
  rw [h]
  by_cases hin : s.chunk.inBoundsCell a.cell = true
  · simp [hin]
  · simp [hin]

/-- Calling `redo` at least as many times as the redo stack is deep replays
exactly the stacked actions (extra calls are no-ops). -/
theorem redoN_replay :
    ∀ (R : List EditAction) (k : Nat) (s : SysState),
      s.redoStack = R → R.length ≤ k →
      (redoN k s).chunk = replayChunk s.chunk R := by
  intro R
  induction R with
  | nil =>
    intro k
    induction k with
    | zero => intro s _ _; rfl
    | succ m ih =>
      intro s h _
      show (redoN m (redo s)).chunk = replayChunk s.chunk []
      have hid : redo s = s := by unfold redo; rw [h]
      rw [hid]
      exact ih s h (by simp)
  | cons a R' ih =>
    intro k s h hk
    cases k with
    | zero => simp at hk
    | succ m =>
      obtain ⟨hc, hr⟩ := redo_cons s a R' h
      show (redoN m (redo s)).chunk = replayChunk s.chunk (a :: R')
      have hstep := ih m (redo s) hr (by simpa using hk)
      rw [hstep, hc]
      rfl

/-- A sequence of successfully committed Place/Remove user edits: each step
is an `attemptPlace` / `attemptRemove` whose guards passed, so the grid
mutation, the feedback, the save scheduling and the history push all
happened.  The raycast seen by the trailing hover refresh is arbitrary. -/
inductive CommitTrace : SysState → List EditAction → SysState → Prop where
  | nil (s : SysState) : CommitTrace s [] s
  | place (s : SysState) (cl : Cell) (ray : Option RayHit)
      (rs : List EditAction) (sN : SysState)
      (hsel : isPlaceableId s.selectedBlockId = true)
      (hair : s.chunk.getBlockCell cl = Block.AIR)
      (hres : s.isRestoring = false)
      (htail : CommitTrace (attemptPlace s (some cl) ray) rs sN) :
      CommitTrace s (⟨.place, s.selectedBlockId, cl⟩ :: rs) sN
  | remove (s : SysState) (cl : Cell) (ray : Option RayHit)
      (rs : List EditAction) (sN : SysState)
      (hocc : s.chunk.getBlockCell cl ≠ Block.AIR)
      (hres : s.isRestoring = false)
      (htail : CommitTrace (attemptRemove s (some cl) ray) rs sN) :
      CommitTrace s (⟨.remove, s.chunk.getBlockCell cl, cl⟩ :: rs) sN

/-- After at least one commit the redo stack is empty. -/
theorem commitTrace_redo_nil {s0 : SysState} {rs : List EditAction}
    {sN : SysState} (h : CommitTrace s0 rs sN) :
    rs = [] ∨ sN.redoStack = [] := by
  induction h with
  | nil s => exact Or.inl rfl
  | place s cl ray rs' sN' hsel hair hres htail ih =>
    refine Or.inr ?_
    rcases ih with h0 | h1
    · subst h0
      cases htail
      rw [attemptPlace_commit s cl ray hsel hair hres]
    · exact h1
  | remove s cl ray rs' sN' hocc hres htail ih =>
    refine Or.inr ?_
    rcases ih with h0 | h1
    · subst h0
      cases htail
      rw [attemptRemove_commit s cl ray hocc hres]
    · exact h1

/-- Undo phase: undoing as many times as there were commits restores the
initial grid and undo stack, and leaves on the redo stack a list whose
replay reproduces the final grid. -/
theorem commitTrace_undo_phase {s0 : SysState} {rs : List EditAction}
    {sN : SysState} (h : CommitTrace s0 rs sN) :
    s0.chunk.Wf → s0.chunk.Bytes →
      ∃ R : List EditAction,
        (undoN rs.length sN).chunk = s0.chunk ∧
        (undoN rs.length sN).undoStack = s0.undoStack ∧
        (undoN rs.length sN).redoStack = R ++ sN.redoStack ∧
        replayChunk s0.chunk R = sN.chunk ∧
        R.length ≤ rs.length := by
  induction h with
  | nil s =>
    intro _ _
    exact ⟨[], rfl, rfl, rfl, rfl, by simp⟩
  | place s cl ray rs' sN' hsel hair hres htail ih =>
    intro hwf hb
    have hcommit := attemptPlace_commit s cl ray hsel hair hres
    have hwf1 : (attemptPlace s (some cl) ray).chunk.Wf := by
      rw [hcommit]
      exact VoxelChunk.setBlock_wf _ _ _ _ _ hwf
    have hb1 : (attemptPlace s (some cl) ray).chunk.Bytes := by
      rw [hcommit]
      exact VoxelChunk.setBlock_bytes _ _ _ _ _ hb
    obtain ⟨R', hc, hu, hr, hrep, hlen⟩ := ih hwf1 hb1
    have hu' : (undoN rs'.length sN').undoStack =
        (⟨.place, s.selectedBlockId, cl⟩ : EditAction) :: s.undoStack := by
      rw [hu, hcommit]
    have hcc : (undoN rs'.length sN').chunk =
        s.chunk.setBlockCell cl s.selectedBlockId := by
      rw [hc, hcommit]
    obtain ⟨huc, huu, hur⟩ :=
      undo_cons (undoN rs'.length sN') ⟨.place, s.selectedBlockId, cl⟩
        s.undoStack hu'
    have hlen' : ((⟨.place, s.selectedBlockId, cl⟩ : EditAction) :: rs').length =
        rs'.length + 1 := rfl
    rw [hlen', undoN_succ]
    by_cases hin : s.chunk.inBoundsCell cl = true
    · refine ⟨⟨.place, s.selectedBlockId, cl⟩ :: R', ?_, ?_, ?_, ?_, ?_⟩
      · rw [huc, hcc]
        show applyActionChunk _ ⟨.remove, s.selectedBlockId, cl⟩ = s.chunk
        unfold applyActionChunk
        rw [if_pos (by rw [VoxelChunk.inBoundsCell_setBlockCell]; exact hin)]
        show (s.chunk.setBlockCell cl s.selectedBlockId).setBlockCell cl Block.AIR =
          s.chunk
        exact VoxelChunk.setBlockCell_cancel s.chunk cl s.selectedBlockId Block.AIR
          hwf hin hair (by unfold Block.AIR; omega)
      · exact huu
      · rw [hur, if_pos (by rw [hcc, VoxelChunk.inBoundsCell_setBlockCell]; exact hin),
          hr]
        rfl
      · show replayChunk (applyActionChunk s.chunk ⟨.place, s.selectedBlockId, cl⟩)
            R' = sN'.chunk
        have : applyActionChunk s.chunk ⟨.place, s.selectedBlockId, cl⟩ =
            (attemptPlace s (some cl) ray).chunk := by
          unfold applyActionChunk
          rw [if_pos hin, hcommit]
        rw [this]
        exact hrep
      · simp only [List.length_cons]
        omega
    · have hoob : s.chunk.inBoundsCell cl = false := by
        cases hx : s.chunk.inBoundsCell cl
        · rfl
        · exact absurd hx hin
      have hnochange : s.chunk.setBlockCell cl s.selectedBlockId = s.chunk :=
        VoxelChunk.setBlockCell_oob s.chunk cl _ hoob
      refine ⟨R', ?_, ?_, ?_, ?_, ?_⟩
      · rw [huc, hcc, hnochange]
        show applyActionChunk _ ⟨.remove, s.selectedBlockId, cl⟩ = s.chunk
        unfold applyActionChunk
        rw [if_neg (by rw [hoob]; simp)]
      · exact huu
      · rw [hur, if_neg (by rw [hcc, VoxelChunk.inBoundsCell_setBlockCell, hoob]; simp),
          hr]
      · have hchunkeq : (attemptPlace s (some cl) ray).chunk = s.chunk := by
          rw [hcommit]
          exact hnochange
        rw [← hchunkeq]
        exact hrep
      · simpa using Nat.le_succ_of_le hlen
  | remove s cl ray rs' sN' hocc hres htail ih =>
    intro hwf hb
    have hcommit := attemptRemove_commit s cl ray hocc hres
    have hin : s.chunk.inBoundsCell cl = true :=
      s.chunk.getBlockCell_ne_air_inBounds cl hocc
    have hwf1 : (attemptRemove s (some cl) ray).chunk.Wf := by
      rw [hcommit]
      exact VoxelChunk.setBlock_wf _ _ _ _ _ hwf
    have hb1 : (attemptRemove s (some cl) ray).chunk.Bytes := by
      rw [hcommit]
      exact VoxelChunk.setBlock_bytes _ _ _ _ _ hb
    obtain ⟨R', hc, hu, hr, hrep, hlen⟩ := ih hwf1 hb1
    have hu' : (undoN rs'.length sN').undoStack =
        (⟨.remove, s.chunk.getBlockCell cl, cl⟩ : EditAction) :: s.undoStack := by
      rw [hu, hcommit]
    have hcc : (undoN rs'.length sN').chunk =
        s.chunk.setBlockCell cl Block.AIR := by
      rw [hc, hcommit]
    obtain ⟨huc, huu, hur⟩ :=
      undo_cons (undoN rs'.length sN') ⟨.remove, s.chunk.getBlockCell cl, cl⟩
        s.undoStack hu'
    have hlen' :
        ((⟨.remove, s.chunk.getBlockCell cl, cl⟩ : EditAction) :: rs').length =
          rs'.length + 1 := rfl
    rw [hlen', undoN_succ]
    refine ⟨⟨.remove, s.chunk.getBlockCell cl, cl⟩ :: R', ?_, ?_, ?_, ?_, ?_⟩
    · rw [huc, hcc]
      show applyActionChunk _ ⟨.place, s.chunk.getBlockCell cl, cl⟩ = s.chunk
      unfold applyActionChunk
      rw [if_pos (by rw [VoxelChunk.inBoundsCell_setBlockCell]; exact hin)]
      show (s.chunk.setBlockCell cl Block.AIR).setBlockCell cl
          (s.chunk.getBlockCell cl) = s.chunk
      exact VoxelChunk.setBlockCell_cancel s.chunk cl Block.AIR
        (s.chunk.getBlockCell cl) hwf hin rfl (s.chunk.getBlockCell_lt cl hwf hb)
    · exact huu
    · rw [hur, if_pos (by rw [hcc, VoxelChunk.inBoundsCell_setBlockCell]; exact hin),
        hr]
      rfl
    · show replayChunk
          (applyActionChunk s.chunk ⟨.remove, s.chunk.getBlockCell cl, cl⟩) R' =
          sN'.chunk
      have : applyActionChunk s.chunk ⟨.remove, s.chunk.getBlockCell cl, cl⟩ =
          (attemptRemove s (some cl) ray).chunk := by
        unfold applyActionChunk
        rw [if_pos hin, hcommit]
      rw [this]
      exact hrep
    · simp only [List.length_cons]
      omega

/-- C4: starting from any well-formed byte grid, after a sequence of N
successfully committed Place/Remove edits, calling `undo` N times and then
`redo` N times reproduces exactly the grid contents reached after the
original N edits. -/
theorem undo_redo_roundtrip (s0 : SysState) (rs : List EditAction)
    (sN : SysState) (h : CommitTrace s0 rs sN) (hwf : s0.chunk.Wf)
    (hb : s0.chunk.Bytes) :
    (redoN rs.length (undoN rs.length sN)).chunk = sN.chunk := by
  obtain ⟨R, hc, hu, hr, hrep, hlen⟩ := commitTrace_undo_phase h hwf hb
  rcases commitTrace_redo_nil h with hnil | hnil
  · subst hnil
    cases h
    rfl
  · rw [hnil, List.append_nil] at hr
    have hrr := redoN_replay R rs.length (undoN rs.length sN) hr hlen
    rw [hrr, hc, hrep]

/-- Witness for `undo_redo_roundtrip`: one committed Place on an empty 1×1×1
grid, one undo, one redo. -/
theorem undo_redo_roundtrip_witness :
    (CommitTrace
          (⟨⟨1, 1, 1, [0]⟩, [], [], false, 1, none, none,
            ⟨none, false, false, none, none⟩, false, []⟩ : SysState)
          [⟨.place, 1, ⟨0, 0, 0⟩⟩]
          (attemptPlace
            (⟨⟨1, 1, 1, [0]⟩, [], [], false, 1, none, none,
              ⟨none, false, false, none, none⟩, false, []⟩ : SysState)
            (some ⟨0, 0, 0⟩) none) ∧
        (⟨⟨1, 1, 1, [0]⟩, [], [], false, 1, none, none,
          ⟨none, false, false, none, none⟩, false, []⟩ : SysState).chunk.Wf ∧
        (⟨⟨1, 1, 1, [0]⟩, [], [], false, 1, none, none,
          ⟨none, false, false, none, none⟩, false, []⟩ : SysState).chunk.Bytes) ∧
      (redoN 1 (undoN 1
          (attemptPlace
            (⟨⟨1, 1, 1, [0]⟩, [], [], false, 1, none, none,
              ⟨none, false, false, none, none⟩, false, []⟩ : SysState)
            (some ⟨0, 0, 0⟩) none))).chunk =
        (attemptPlace
          (⟨⟨1, 1, 1, [0]⟩, [], [], false, 1, none, none,
            ⟨none, false, false, none, none⟩, false, []⟩ : SysState)
          (some ⟨0, 0, 0⟩) none).chunk := by
  have tr : CommitTrace
      (⟨⟨1, 1, 1, [0]⟩, [], [], false, 1, none, none,
        ⟨none, false, false, none, none⟩, false, []⟩ : SysState)
      [⟨.place, 1, ⟨0, 0, 0⟩⟩]
      (attemptPlace
        (⟨⟨1, 1, 1, [0]⟩, [], [], false, 1, none, none,
          ⟨none, false, false, none, none⟩, false, []⟩ : SysState)
        (some ⟨0, 0, 0⟩) none) :=
    CommitTrace.place _ ⟨0, 0, 0⟩ none [] _ (by decide) (by decide) rfl
      (CommitTrace.nil _)
  exact ⟨⟨tr, by decide, by decide⟩,
    undo_redo_roundtrip _ _ _ tr (by decide) (by decide)⟩

/-! ## C9: every recorded action targets an in-bounds cell -/

theorem worldPointToCell_inBounds (c : VoxelChunk) (p : Vec3) (snapY : Bool)
    (q : Cell) (h : worldPointToCell c p snapY = some q) :
    c.inBoundsCell q = true := by
  unfold worldPointToCell at h
  by_cases hb : c.inBounds ⌊(p.x + halfWidth c) / VOXEL_SIZE⌋
      ⌊(if snapY then p.y / VOXEL_SIZE else p.y) + 1 / 2⌋
      ⌊(p.z + halfDepth c) / VOXEL_SIZE⌋ = true
  · rw [if_pos hb] at h
    simp only [Option.some.injEq] at h
    subst h
    exact hb
  · rw [if_neg hb] at h
    simp at h

/-- Any hover pair the picker produces refers only to in-bounds cells; the
placement half is moreover an empty cell. -/
theorem updateHover_inBounds (c : VoxelChunk) (ray : Option RayHit) :
    (∀ p : Cell, (updateHoverFromPointer c ray).1 = some p →
        c.inBoundsCell p = true ∧ c.getBlockCell p = Block.AIR) ∧
      (∀ p : Cell, (updateHoverFromPointer c ray).2 = some p →
        c.inBoundsCell p = true) := by
  match ray with
  | none => simp [updateHoverFromPointer]
  | some hit =>
      simp only [updateHoverFromPointer]
      by_cases hb : hit.isBlockWithFace
      · rw [if_pos hb]
        rcases hwp : worldPointToCell c
            ⟨hit.point.x + hit.normalX * (-(1 / 2) * VOXEL_SIZE),
             hit.point.y + hit.normalY * (-(1 / 2) * VOXEL_SIZE),
             hit.point.z + hit.normalZ * (-(1 / 2) * VOXEL_SIZE)⟩ true with
          _ | hitCell
        · simp
        · have hinhit := worldPointToCell_inBounds _ _ _ _ hwp
          simp only
          by_cases hadj : c.inBoundsCell
              ⟨hitCell.x + hit.normalX, hitCell.y + hit.normalY,
                hitCell.z + hit.normalZ⟩ &&
              (c.getBlockCell
                ⟨hitCell.x + hit.normalX, hitCell.y + hit.normalY,
                  hitCell.z + hit.normalZ⟩ == Block.AIR)
          · rw [if_pos hadj]
            simp only [Bool.and_eq_true, beq_iff_eq] at hadj
            constructor
            · intro p hp
              simp only [Option.some.injEq] at hp
              subst hp
              exact ⟨hadj.1, hadj.2⟩
            · intro p hp
              simp only [Option.some.injEq] at hp
              subst hp
              exact hinhit
          · rw [if_neg hadj]
            constructor
            · intro p hp
              simp at hp
            · intro p hp
              simp only [Option.some.injEq] at hp
              subst hp
              exact hinhit
      · rw [if_neg hb]
        simp

theorem VoxelChunk.inBoundsCell_congr (c c' : VoxelChunk) (p : Cell)
    (hw : c.width = c'.width) (hh : c.height = c'.height)
    (hd : c.depth = c'.depth) : c.inBoundsCell p = c'.inBoundsCell p := by
  unfold VoxelChunk.inBoundsCell VoxelChunk.inBounds
  rw [hw, hh, hd]

theorem VoxelChunk.setBlockCell_dims (c : VoxelChunk) (p : Cell) (v : Nat) :
    (c.setBlockCell p v).width = c.width ∧
      (c.setBlockCell p v).height = c.height ∧
      (c.setBlockCell p v).depth = c.depth :=
  VoxelChunk.setBlock_dims c p.x p.y p.z v

/-- The bounds invariant threaded through the event machine: every stacked
action, every captured pointer cell and every hover cell is in bounds. -/
def CellsInBounds (s : SysState) : Prop :=
  (∀ a ∈ s.undoStack, s.chunk.inBoundsCell a.cell = true) ∧
    (∀ a ∈ s.redoStack, s.chunk.inBoundsCell a.cell = true) ∧
    (∀ p : Cell, s.pointer.placeCell = some p → s.chunk.inBoundsCell p = true) ∧
    (∀ p : Cell, s.hoverPlaceCell = some p → s.chunk.inBoundsCell p = true)

theorem attemptPlace_bounds (s : SysState) (cellOpt : Option Cell)
    (ray : Option RayHit) (h : CellsInBounds s)
    (hc : ∀ p : Cell, cellOpt = some p → s.chunk.inBoundsCell p = true) :
    CellsInBounds (attemptPlace s cellOpt ray) := by
  obtain ⟨h1, h2, h3, h4⟩ := h
  match cellOpt with
  | none => exact ⟨h1, h2, h3, h4⟩
  | some cl =>
    have hcl : s.chunk.inBoundsCell cl = true := hc cl rfl
    have hdim : ∀ p : Cell,
        (s.chunk.setBlockCell cl s.selectedBlockId).inBoundsCell p =
          s.chunk.inBoundsCell p :=
      fun p => VoxelChunk.inBoundsCell_setBlockCell s.chunk p cl s.selectedBlockId
    have hhp := (updateHover_inBounds (s.chunk.setBlockCell cl s.selectedBlockId)
      ray).1
    simp only [attemptPlace]
    split
    · exact ⟨h1, h2, h3, h4⟩
    split
    · exact ⟨h1, h2, h3, h4⟩
    split
    · refine ⟨?_, ?_, ?_, ?_⟩
      · intro a ha
        simp only [pushAction, List.mem_cons] at ha
        rcases ha with rfl | ha
        · simp only [pushAction, hdim]
          exact hcl
        · simp only [pushAction, hdim]
          exact h1 a ha
      · intro a ha
        simp [pushAction] at ha
      · intro p hp
        simp only [pushAction] at hp ⊢
        rw [hdim]
        exact h3 p hp
      · intro p hp
        simp only [pushAction] at hp
        exact (hhp p hp).1
    · refine ⟨?_, ?_, ?_, ?_⟩
      · intro a ha
        simp only [] at ha
        rw [hdim]
        exact h1 a ha
      · intro a ha
        simp only [] at ha
        rw [hdim]
        exact h2 a ha
      · intro p hp
        rw [hdim]
        exact h3 p hp
      · intro p hp
        exact (hhp p hp).1

theorem attemptRemove_bounds (s : SysState) (cellOpt : Option Cell)
    (ray : Option RayHit) (h : CellsInBounds s) :
    CellsInBounds (attemptRemove s cellOpt ray) := by
  obtain ⟨h1, h2, h3, h4⟩ := h
  match cellOpt with
  | none => exact ⟨h1, h2, h3, h4⟩
  | some cl =>
    simp only [attemptRemove]
    split
    · exact ⟨h1, h2, h3, h4⟩
    rename_i hocc
    have hcl : s.chunk.inBoundsCell cl = true :=
      s.chunk.getBlockCell_ne_air_inBounds cl hocc
    have hdim : ∀ p : Cell,
        (s.chunk.setBlockCell cl Block.AIR).inBoundsCell p =
          s.chunk.inBoundsCell p :=
      fun p => VoxelChunk.inBoundsCell_setBlockCell s.chunk p cl Block.AIR
    have hhp := (updateHover_inBounds (s.chunk.setBlockCell cl Block.AIR) ray).1
    split
    · refine ⟨?_, ?_, ?_, ?_⟩
      · intro a ha
        simp only [pushAction, List.mem_cons] at ha
        rcases ha with rfl | ha
        · simp only [pushAction, hdim]
          exact hcl
        · simp only [pushAction, hdim]
          exact h1 a ha
      · intro a ha
        simp [pushAction] at ha
      · intro p hp
        simp only [pushAction] at hp ⊢
        rw [hdim]
        exact h3 p hp
      · intro p hp
        simp only [pushAction] at hp
        exact (hhp p hp).1
    · refine ⟨?_, ?_, ?_, ?_⟩
      · intro a ha
        simp only [] at ha
        rw [hdim]
        exact h1 a ha
      · intro a ha
        simp only [] at ha
        rw [hdim]
        exact h2 a ha
      · intro p hp
        rw [hdim]
        exact h3 p hp
      · intro p hp
        exact (hhp p hp).1

theorem undo_bounds (s : SysState) (h : CellsInBounds s) :
    CellsInBounds (undo s) := by
  obtain ⟨h1, h2, h3, h4⟩ := h
  rcases hs : s.undoStack with _ | ⟨a, rest⟩
  · unfold undo
    rw [hs]
    exact ⟨h1, h2, h3, h4⟩
  · have ha : s.chunk.inBoundsCell a.cell = true := h1 a (by rw [hs]; simp)
    unfold undo applyAction
    rw [hs]
    simp only [invertAction_cell]
    by_cases hin : s.chunk.inBoundsCell a.cell = true
    · simp only [hin, if_true, if_pos]
      refine ⟨?_, ?_, ?_, ?_⟩
      · intro b hb
        rw [VoxelChunk.inBoundsCell_setBlockCell]
        exact h1 b (by rw [hs]; exact List.mem_cons_of_mem _ hb)
      · intro b hb
        simp only [List.mem_cons] at hb
        rcases hb with rfl | hb
        · rw [VoxelChunk.inBoundsCell_setBlockCell]
          exact ha
        · rw [VoxelChunk.inBoundsCell_setBlockCell]
          exact h2 b hb
      · intro p hp
        rw [VoxelChunk.inBoundsCell_setBlockCell]
        exact h3 p hp
      · intro p hp
        rw [VoxelChunk.inBoundsCell_setBlockCell]
        exact h4 p hp
    · exact absurd ha hin

theorem redo_bounds (s : SysState) (h : CellsInBounds s) :
    CellsInBounds (redo s) := by
  obtain ⟨h1, h2, h3, h4⟩ := h
  rcases hs : s.redoStack with _ | ⟨a, rest⟩
  · unfold redo
    rw [hs]
    exact ⟨h1, h2, h3, h4⟩
  · have ha : s.chunk.inBoundsCell a.cell = true := h2 a (by rw [hs]; simp)
    unfold redo applyAction
    rw [hs]
    by_cases hin : s.chunk.inBoundsCell a.cell = true
    · simp only [hin, if_true, if_pos]
      refine ⟨?_, ?_, ?_, ?_⟩
      · intro b hb
        simp only [List.mem_cons] at hb
        rcases hb with rfl | hb
        · rw [VoxelChunk.inBoundsCell_setBlockCell]
          exact ha
        · rw [VoxelChunk.inBoundsCell_setBlockCell]
          exact h1 b hb
      · intro b hb
        rw [VoxelChunk.inBoundsCell_setBlockCell]
        exact h2 b (by rw [hs]; exact List.mem_cons_of_mem _ hb)
      · intro p hp
        rw [VoxelChunk.inBoundsCell_setBlockCell]
        exact h3 p hp
      · intro p hp
        rw [VoxelChunk.inBoundsCell_setBlockCell]
        exact h4 p hp
    · exact absurd ha hin

theorem handlePointerDown_bounds (s : SysState) (pid button : Nat)
    (ray : Option RayHit) (h : CellsInBounds s) :
    CellsInBounds (handlePointerDown s pid button ray) := by
  obtain ⟨h1, h2, h3, h4⟩ := h
  simp only [handlePointerDown]
  split
  · exact ⟨h1, h2, h3, h4⟩
  · have hh := updateHover_inBounds s.chunk ray
    split
    · exact ⟨h1, h2, h3, fun p hp => (hh.1 p hp).1⟩
    · exact ⟨h1, h2, fun p hp => (hh.1 p hp).1, fun p hp => (hh.1 p hp).1⟩

theorem handlePointerMove_bounds (s : SysState) (pid : Nat)
    (ray : Option RayHit) (h : CellsInBounds s) :
    CellsInBounds (handlePointerMove s pid ray) := by
  obtain ⟨h1, h2, h3, h4⟩ := h
  simp only [handlePointerMove]
  have hh := updateHover_inBounds s.chunk ray
  split
  · exact ⟨h1, h2, fun p hp => (hh.1 p hp).1, fun p hp => (hh.1 p hp).1⟩
  · exact ⟨h1, h2, h3, fun p hp => (hh.1 p hp).1⟩

theorem handleLongPressTimer_bounds (s : SysState) (ray : Option RayHit)
    (h : CellsInBounds s) : CellsInBounds (handleLongPressTimer s ray) := by
  unfold handleLongPressTimer
  split
  · obtain ⟨g1, g2, g3, g4⟩ :=
      attemptRemove_bounds s s.pointer.removeCell ray h
    exact ⟨g1, g2, g3, g4⟩
  · exact h

theorem handlePointerUp_bounds (s : SysState) (pid : Nat)
    (ray : Option RayHit) (h : CellsInBounds s) :
    CellsInBounds (handlePointerUp s pid ray) := by
  obtain ⟨h1, h2, h3, h4⟩ := h
  simp only [handlePointerUp]
  split
  · split
    · apply attemptPlace_bounds
      · exact ⟨h1, h2, fun p hp => by simp [clearPointerState] at hp, h4⟩
      · intro p hp
        exact h3 p hp
    · exact ⟨h1, h2, fun p hp => by simp [clearPointerState] at hp, h4⟩
  · exact ⟨h1, h2, h3, h4⟩

theorem handlePointerCancel_bounds (s : SysState) (pid : Nat)
    (h : CellsInBounds s) : CellsInBounds (handlePointerCancel s pid) := by
  obtain ⟨h1, h2, h3, h4⟩ := h
  unfold handlePointerCancel
  split
  · exact ⟨h1, h2, fun p hp => by simp [clearPointerState] at hp, h4⟩
  · exact ⟨h1, h2, h3, h4⟩

theorem handlePointerLeave_bounds (s : SysState) (h : CellsInBounds s) :
    CellsInBounds (handlePointerLeave s) := by
  obtain ⟨h1, h2, h3, h4⟩ := h
  exact ⟨h1, h2, fun p hp => by simp [handlePointerLeave, clearPointerState] at hp,
    fun p hp => by simp [handlePointerLeave, clearPointerState] at hp⟩

theorem step_bounds (s : SysState) (e : PointerEvent) (h : CellsInBounds s) :
    CellsInBounds (step s e) := by
  cases e with
  | pointerDown pid button ray => exact handlePointerDown_bounds s pid button ray h
  | pointerMove pid ray => exact handlePointerMove_bounds s pid ray h
  | pointerUp pid ray => exact handlePointerUp_bounds s pid ray h
  | pointerCancel pid => exact handlePointerCancel_bounds s pid h
  | pointerLeave => exact handlePointerLeave_bounds s h
  | longPressTimer ray => exact handleLongPressTimer_bounds s ray h
  | undoClick => exact undo_bounds s h
  | redoClick => exact redo_bounds s h

theorem runEvents_bounds (s : SysState) (evs : List PointerEvent)
    (h : CellsInBounds s) : CellsInBounds (runEvents s evs) := by
  induction evs generalizing s with
  | nil => exact h
  | cons e es ih => exact ih (step s e) (step_bounds s e h)

/-- C9: starting from any state whose history stacks, captured pointer cell
and hover cell are in bounds (the startup state trivially is), every action
on the undo or redo stack after any event sequence has an in-bounds cell, so
applying a structurally-derived inverse during `undo`, or re-applying during
`redo`, always passes the bounds check (its `applyAction` reports success,
never the out-of-bounds rejection). -/
theorem history_actions_in_bounds (s0 : SysState) (evs : List PointerEvent)
    (h0 : CellsInBounds s0) :
    (∀ a ∈ (runEvents s0 evs).undoStack,
        (runEvents s0 evs).chunk.inBoundsCell a.cell = true) ∧
      (∀ a ∈ (runEvents s0 evs).redoStack,
        (runEvents s0 evs).chunk.inBoundsCell a.cell = true) ∧
      (∀ a ∈ (runEvents s0 evs).undoStack,
        (applyAction (runEvents s0 evs) (invertAction a)).2 = true) ∧
      (∀ a ∈ (runEvents s0 evs).redoStack,
        (applyAction (runEvents s0 evs) a).2 = true) := by
  obtain ⟨g1, g2, g3, g4⟩ := runEvents_bounds s0 evs h0
  refine ⟨g1, g2, ?_, ?_⟩
  · intro a ha
    unfold applyAction
    rw [invertAction_cell, if_pos (g1 a ha)]
  · intro a ha
    unfold applyAction
    rw [if_pos (g2 a ha)]

/-- Witness for `history_actions_in_bounds`: the startup-like idle state on a
1×1×1 grid holding one stone block, run through a down–fire–up gesture. -/
theorem history_actions_in_bounds_witness :
    CellsInBounds
        (⟨⟨1, 1, 1, [3]⟩, [], [], false, 1, none, none,
          ⟨none, false, false, none, none⟩, false, []⟩ : SysState) ∧
      (∀ a ∈ (runEvents
            (⟨⟨1, 1, 1, [3]⟩, [], [], false, 1, none, none,
              ⟨none, false, false, none, none⟩, false, []⟩ : SysState)
            [.pointerDown 1 0 none, .longPressTimer none,
              .pointerUp 1 none]).undoStack,
        (runEvents
            (⟨⟨1, 1, 1, [3]⟩, [], [], false, 1, none, none,
              ⟨none, false, false, none, none⟩, false, []⟩ : SysState)
            [.pointerDown 1 0 none, .longPressTimer none,
              .pointerUp 1 none]).chunk.inBoundsCell a.cell = true) := by
  have hinv : CellsInBounds
      (⟨⟨1, 1, 1, [3]⟩, [], [], false, 1, none, none,
        ⟨none, false, false, none, none⟩, false, []⟩ : SysState) :=
    ⟨by simp, by simp, fun p hp => by simp at hp, fun p hp => by simp at hp⟩
  exact ⟨hinv,
    (history_actions_in_bounds _
      [.pointerDown 1 0 none, .longPressTimer none, .pointerUp 1 none] hinv).1⟩

/-! ## C7: at most one commit per completed gesture -/

/-- Events that neither start nor end a gesture: hover moves, the long-press
timer, and the history buttons. -/
def isMidEvent : PointerEvent → Bool
  | .pointerMove _ _ => true
  | .longPressTimer _ => true
  | .undoClick => true
  | .redoClick => true
  | _ => false

/-- Events that complete the tracked gesture for pointer `pid`: its
pointer-up or pointer-cancel, or a pointer-leave (which clears the
controller unconditionally). -/
def isEndEvent (pid : Nat) : PointerEvent → Bool
  | .pointerUp q _ => q == pid
  | .pointerCancel q => q == pid
  | .pointerLeave => true
  | _ => false

theorem attemptPlace_frame (s : SysState) (cellOpt : Option Cell)
    (ray : Option RayHit) :
    (attemptPlace s cellOpt ray).pointer = s.pointer ∧
      ∃ d : List EditAction,
        (attemptPlace s cellOpt ray).commits = s.commits ++ d ∧ d.length ≤ 1 := by
  match cellOpt with
  | none => exact ⟨rfl, ⟨[], by simp [attemptPlace], by simp⟩⟩
  | some cl =>
    simp only [attemptPlace]
    split
    · exact ⟨rfl, ⟨[], by simp, by simp⟩⟩
    split
    · exact ⟨rfl, ⟨[], by simp, by simp⟩⟩
    split
    · exact ⟨rfl, ⟨[⟨.place, s.selectedBlockId, cl⟩], rfl, by simp⟩⟩
    · exact ⟨rfl, ⟨[⟨.place, s.selectedBlockId, cl⟩], rfl, by simp⟩⟩

theorem attemptRemove_frame (s : SysState) (cellOpt : Option Cell)
    (ray : Option RayHit) :
    (attemptRemove s cellOpt ray).pointer = s.pointer ∧
      ∃ d : List EditAction,
        (attemptRemove s cellOpt ray).commits = s.commits ++ d ∧ d.length ≤ 1 := by
  match cellOpt with
  | none => exact ⟨rfl, ⟨[], by simp [attemptRemove], by simp⟩⟩
  | some cl =>
    simp only [attemptRemove]
    split
    · exact ⟨rfl, ⟨[], by simp, by simp⟩⟩
    split
    · exact ⟨rfl, ⟨[⟨.remove, s.chunk.getBlockCell cl, cl⟩], rfl, by simp⟩⟩
    · exact ⟨rfl, ⟨[⟨.remove, s.chunk.getBlockCell cl, cl⟩], rfl, by simp⟩⟩

theorem undo_frame (s : SysState) :
    (undo s).pointer = s.pointer ∧ (undo s).commits = s.commits := by
  rcases hs : s.undoStack with _ | ⟨a, rest⟩
  · simp [undo, hs]
  · simp only [undo, applyAction, hs]
    split_ifs <;> exact ⟨rfl, rfl⟩

theorem redo_frame (s : SysState) :
    (redo s).pointer = s.pointer ∧ (redo s).commits = s.commits := by
  rcases hs : s.redoStack with _ | ⟨a, rest⟩
  · simp [redo, hs]
  · simp only [redo, applyAction, hs]
    split_ifs <;> exact ⟨rfl, rfl⟩

/-- The invariant holding between the pointer-down and the gesture's end
event: the controller tracks `pid` (or nothing), an idle controller has no
live timer and no fired flag, a live timer implies the long press has not yet
fired, and the commits since `base` number at most one — and only after the
long press fired. -/
def GestureInv (base : List EditAction) (pid : Nat) (s : SysState) : Prop :=
  (s.pointer.pointerId = none ∨ s.pointer.pointerId = some pid) ∧
    (s.pointer.pointerId = none →
      s.pointer.timerPending = false ∧ s.pointer.longPressFired = false) ∧
    (s.pointer.timerPending = true → s.pointer.longPressFired = false) ∧
    ∃ new : List EditAction, s.commits = base ++ new ∧
      new.length ≤ (if s.pointer.longPressFired = true then 1 else 0)

theorem pointerDown_ginv (s : SysState) (pid button : Nat) (ray : Option RayHit)
    (hid : s.pointer.pointerId = none)
    (htimer : s.pointer.timerPending = false)
    (hfired : s.pointer.longPressFired = false) :
    GestureInv s.commits pid (step s (.pointerDown pid button ray)) := by
  show GestureInv s.commits pid (handlePointerDown s pid button ray)
  simp only [handlePointerDown]
  split
  · exact ⟨Or.inl hid, fun _ => ⟨htimer, hfired⟩, fun _ => hfired,
      ⟨[], by simp, by simp [hfired]⟩⟩
  · split
    · exact ⟨Or.inl hid, fun _ => ⟨htimer, hfired⟩, fun _ => hfired,
        ⟨[], by simp, by simp [hfired]⟩⟩
    · refine ⟨Or.inr rfl, ?_, fun _ => rfl, ⟨[], by simp, by simp⟩⟩
      intro hnone
      simp at hnone

theorem midStep_ginv (base : List EditAction) (pid : Nat) (s : SysState)
    (e : PointerEvent) (hmid : isMidEvent e = true) (h : GestureInv base pid s) :
    GestureInv base pid (step s e) := by
  obtain ⟨hptr, hidle, htmr, new, hcomm, hlen⟩ := h
  cases e with
  | pointerMove pid' ray =>
    show GestureInv base pid (handlePointerMove s pid' ray)
    simp only [handlePointerMove]
    split
    · refine ⟨hptr, ?_, ?_, ⟨new, hcomm, hlen⟩⟩
      · intro hnone
        obtain ⟨ht, hf⟩ := hidle hnone
        refine ⟨?_, hf⟩
        show (if (updateHoverFromPointer s.chunk ray).2 = none then false
            else s.pointer.timerPending) = false
        rw [ht]
        split <;> rfl
      · intro ht
        apply htmr
        simp only at ht
        by_cases h2n : (updateHoverFromPointer s.chunk ray).2 = none
        · rw [if_pos h2n] at ht
          exact absurd ht (by simp)
        · rw [if_neg h2n] at ht
          exact ht
    · exact ⟨hptr, hidle, htmr, ⟨new, hcomm, hlen⟩⟩
  | longPressTimer ray =>
    show GestureInv base pid (handleLongPressTimer s ray)
    simp only [handleLongPressTimer]
    split
    · rename_i hpend
      have hnf : s.pointer.longPressFired = false := htmr hpend
      obtain ⟨hfp, d, hdc, hdl⟩ := attemptRemove_frame s s.pointer.removeCell ray
      have hnz : new = [] := by
        have := hlen
        rw [hnf] at this
        simpa using this
      refine ⟨?_, ?_, ?_, ⟨d, ?_, ?_⟩⟩
      · show ((attemptRemove s s.pointer.removeCell ray).pointer.pointerId = none ∨
            (attemptRemove s s.pointer.removeCell ray).pointer.pointerId = some pid)
        rw [hfp]
        exact hptr
      · intro hnone
        rw [show (attemptRemove s s.pointer.removeCell ray).pointer.pointerId =
            s.pointer.pointerId from by rw [hfp]] at hnone
        exact absurd hpend (by simp [(hidle hnone).1])
      · intro ht
        simp at ht
      · show (attemptRemove s s.pointer.removeCell ray).commits = base ++ d
        rw [hdc, hcomm, hnz]
        simp
      · simpa using hdl
    · exact ⟨hptr, hidle, htmr, ⟨new, hcomm, hlen⟩⟩
  | undoClick =>
    obtain ⟨hp, hc⟩ := undo_frame s
    show GestureInv base pid (undo s)
    rw [GestureInv, hp, hc]
    exact ⟨hptr, hidle, htmr, ⟨new, hcomm, hlen⟩⟩
  | redoClick =>
    obtain ⟨hp, hc⟩ := redo_frame s
    show GestureInv base pid (redo s)
    rw [GestureInv, hp, hc]
    exact ⟨hptr, hidle, htmr, ⟨new, hcomm, hlen⟩⟩
  | pointerDown pid' button ray => simp [isMidEvent] at hmid
  | pointerUp pid' ray => simp [isMidEvent] at hmid
  | pointerCancel pid' => simp [isMidEvent] at hmid
  | pointerLeave => simp [isMidEvent] at hmid

theorem midRun_ginv (base : List EditAction) (pid : Nat) :
    ∀ (mids : List PointerEvent) (s : SysState),
      (∀ e ∈ mids, isMidEvent e = true) → GestureInv base pid s →
      GestureInv base pid (runEvents s mids) := by
  intro mids
  induction mids with
  | nil => intro s _ h; exact h
  | cons e es ih =>
    intro s hm h
    exact ih (step s e) (fun x hx => hm x (List.mem_cons_of_mem _ hx))
      (midStep_ginv base pid s e (hm e (by simp)) h)

/-- C7: for every completed gesture — pointer-down from an idle controller,
any interleaving of moves, timer firings and history clicks, then the
pointer's up/cancel or a leave — at most one edit is committed (never both a
Place and a Remove); if the long-press fired, the ending pointer-up commits
no Place even though a placement candidate was captured at down-time; and
cancel or leave commit nothing and change no grid cell.  In every case the
controller ends Idle (not stuck in Tracking). -/
theorem gesture_at_most_one_commit (s0 : SysState) (pid button : Nat)
    (ray : Option RayHit) (mids : List PointerEvent) (endEv : PointerEvent)
    (hid : s0.pointer.pointerId = none)
    (htimer : s0.pointer.timerPending = false)
    (hfired : s0.pointer.longPressFired = false)
    (hmids : ∀ e ∈ mids, isMidEvent e = true)
    (hend : isEndEvent pid endEv = true) :
    (∃ newCommits : List EditAction,
        (step (runEvents (step s0 (.pointerDown pid button ray)) mids)
            endEv).commits = s0.commits ++ newCommits ∧
          newCommits.length ≤ 1) ∧
      (step (runEvents (step s0 (.pointerDown pid button ray)) mids)
          endEv).pointer.pointerId = none ∧
      ((endEv = .pointerCancel pid ∨ endEv = .pointerLeave) →
        (step (runEvents (step s0 (.pointerDown pid button ray)) mids)
              endEv).commits =
            (runEvents (step s0 (.pointerDown pid button ray)) mids).commits ∧
          (step (runEvents (step s0 (.pointerDown pid button ray)) mids)
              endEv).chunk =
            (runEvents (step s0 (.pointerDown pid button ray)) mids).chunk) ∧
      ((runEvents (step s0 (.pointerDown pid button ray))
            mids).pointer.longPressFired = true →
        (step (runEvents (step s0 (.pointerDown pid button ray)) mids)
            endEv).commits =
          (runEvents (step s0 (.pointerDown pid button ray)) mids).commits) := by
  have g2 : GestureInv s0.commits pid
      (runEvents (step s0 (.pointerDown pid button ray)) mids) :=
    midRun_ginv s0.commits pid mids _ hmids
      (pointerDown_ginv s0 pid button ray hid htimer hfired)
  set s2 := runEvents (step s0 (.pointerDown pid button ray)) mids with hs2
  obtain ⟨hptr, hidle, htmr, new, hcomm, hlen⟩ := g2
  have hlen1 : new.length ≤ 1 := by
    by_cases hx : s2.pointer.longPressFired = true
    · rw [if_pos hx] at hlen
      exact hlen
    · rw [if_neg hx] at hlen
      omega
  cases endEv with
  | pointerUp q ray' =>
    have hq : q = pid := by simpa [isEndEvent] using hend
    subst hq
    simp only [step]
    by_cases hm : s2.pointer.pointerId = some q
    · simp only [handlePointerUp, if_pos hm]
      by_cases hsp : s2.pointer.longPressFired = false ∧
          s2.pointer.placeCell ≠ none
      · rw [if_pos hsp]
        obtain ⟨hfp, d, hdc, hdl⟩ :=
          attemptPlace_frame (clearPointerState s2) s2.pointer.placeCell ray'
        have hnewnil : new = [] := by
          rw [hsp.1] at hlen
          simpa using hlen
        refine ⟨⟨d, ?_, hdl⟩, ?_, ?_, ?_⟩
        · rw [hdc]
          show s2.commits ++ d = s0.commits ++ d
          rw [hcomm, hnewnil]
          simp
        · rw [hfp]
          rfl
        · intro hce
          rcases hce with h | h <;> cases h
        · intro hf
          exact absurd hf (by simp [hsp.1])
      · rw [if_neg hsp]
        refine ⟨⟨new, hcomm, hlen1⟩, rfl, ?_, fun _ => rfl⟩
        intro hce
        rcases hce with h | h <;> cases h
    · simp only [handlePointerUp, if_neg hm]
      have hn : s2.pointer.pointerId = none := by
        rcases hptr with h | h
        · exact h
        · exact absurd h hm
      refine ⟨⟨new, hcomm, hlen1⟩, hn, ?_, fun _ => trivial⟩
      intro hce
      rcases hce with h | h <;> cases h
  | pointerCancel q =>
    have hq : q = pid := by simpa [isEndEvent] using hend
    subst hq
    simp only [step, handlePointerCancel]
    by_cases hm : s2.pointer.pointerId = some q
    · rw [if_pos hm]
      exact ⟨⟨new, hcomm, hlen1⟩, rfl, fun _ => ⟨rfl, rfl⟩, fun _ => rfl⟩
    · rw [if_neg hm]
      have hn : s2.pointer.pointerId = none := by
        rcases hptr with h | h
        · exact h
        · exact absurd h hm
      exact ⟨⟨new, hcomm, hlen1⟩, hn, fun _ => ⟨rfl, rfl⟩, fun _ => rfl⟩
  | pointerLeave =>
    simp only [step, handlePointerLeave]
    exact ⟨⟨new, hcomm, hlen1⟩, rfl, fun _ => ⟨rfl, rfl⟩, fun _ => rfl⟩
  | pointerDown q b r => simp [isEndEvent] at hend
  | pointerMove q r => simp [isEndEvent] at hend
  | longPressTimer r => simp [isEndEvent] at hend
  | undoClick => simp [isEndEvent] at hend
  | redoClick => simp [isEndEvent] at hend

/-- Witness for `gesture_at_most_one_commit`: an idle start state, an empty
mid-gesture event list, and a matching pointer-up. -/
theorem gesture_at_most_one_commit_witness :
    ((⟨⟨1, 1, 1, [3]⟩, [], [], false, 1, none, none,
          ⟨none, false, false, none, none⟩, false, []⟩ :
            SysState).pointer.pointerId = none ∧
        (⟨⟨1, 1, 1, [3]⟩, [], [], false, 1, none, none,
          ⟨none, false, false, none, none⟩, false, []⟩ :
            SysState).pointer.timerPending = false ∧
        (⟨⟨1, 1, 1, [3]⟩, [], [], false, 1, none, none,
          ⟨none, false, false, none, none⟩, false, []⟩ :
            SysState).pointer.longPressFired = false ∧
        (∀ e ∈ ([] : List PointerEvent), isMidEvent e = true) ∧
        isEndEvent 1 (.pointerUp 1 none) = true) ∧
      (step (runEvents
            (step (⟨⟨1, 1, 1, [3]⟩, [], [], false, 1, none, none,
              ⟨none, false, false, none, none⟩, false, []⟩ : SysState)
              (.pointerDown 1 0 none)) [])
          (.pointerUp 1 none)).pointer.pointerId = none :=
  ⟨⟨rfl, rfl, rfl, by simp, rfl⟩,
    (gesture_at_most_one_commit
        (⟨⟨1, 1, 1, [3]⟩, [], [], false, 1, none, none,
          ⟨none, false, false, none, none⟩, false, []⟩ : SysState)
        1 0 none [] (.pointerUp 1 none) rfl rfl rfl (by simp) rfl).2.1⟩
